import Mathlib

/-!
Shallow embedding of the todo-tree persistence engine of
`src-tauri/src/db.rs` (desktop sticky-notes widget: hierarchical todo list
stored in a SQLite table).

The `todos` table is modelled as a list of rows in rowid (insertion) order;
every SQL statement of the source is translated into the corresponding
explicit list operation.  SQL `UPDATE ... WHERE cond` becomes `List.map`
with a row-wise conditional, `DELETE ... WHERE cond` becomes `List.filter`,
`SELECT ... WHERE id = ?` via `query_row` becomes `List.find?` (first
matching row), and aggregate `COUNT`/`SUM(CASE WHEN ...)` queries become
`List.countP`.

Two points where SQLite semantics matter are modelled explicitly:

* `delete_todo` runs `DELETE FROM todos WHERE id = ?1`.  Although the
  schema in `init_db` declares `FOREIGN KEY(parent_id) REFERENCES todos(id)
  ON DELETE CASCADE`, SQLite only enforces foreign keys on a connection
  after `PRAGMA foreign_keys = ON`, and the source never issues that
  pragma on any of its per-call connections (`Connection::open` leaves the
  default, which is OFF).  The declared cascade is therefore inert and the
  statement deletes exactly the rows whose `id` matches.

* the recursive CTE in `update_todo` (cascade down) enumerates all
  transitive descendants by repeatedly joining on `parent_id`.  It is
  modelled by a breadth-first expansion with fuel `s.length`, which reaches
  the full descendant set on every acyclic state (a downward chain can
  visit each of the finitely many rows at most once).
-/

/-- A row of the `todos` table (struct `TodoItem` in `db.rs`). -/
structure Todo where
  id : Nat
  text : String
  completed : Bool
  parent_id : Option Nat
  position : Int
  target_count : Option Int
  current_count : Int
  deriving DecidableEq

/-- The `todos` table: rows in rowid (insertion) order. -/
abbrev State := List Todo

/-- The list of ids stored in the table. -/
def ids (s : State) : List Nat := s.map (fun r => r.id)

/-- `SELECT ... FROM todos WHERE id = ?` through `query_row`: the first row
whose `id` matches. -/
def lookupTodo (s : State) (i : Nat) : Option Todo :=
  s.find? (fun r => r.id == i)

/-- The `completed` flag of row `i` (`false` when the row is absent). -/
def completedOf (s : State) (i : Nat) : Bool :=
  match lookupTodo s i with
  | some r => r.completed
  | none => false

/-- The `current_count` of row `i` (`0` when the row is absent). -/
def currentOf (s : State) (i : Nat) : Int :=
  match lookupTodo s i with
  | some r => r.current_count
  | none => 0

/-- The `target_count` of row `i`. -/
def targetOf (s : State) (i : Nat) : Option Int :=
  match lookupTodo s i with
  | some r => r.target_count
  | none => none

/-- The `parent_id` of row `i`. -/
def parentOf (s : State) (i : Nat) : Option Nat :=
  match lookupTodo s i with
  | some r => r.parent_id
  | none => none

/-- Ids of the direct children of node `p`
(`SELECT id FROM todos WHERE parent_id = ?`). -/
def childIdsOf (s : State) (p : Nat) : List Nat :=
  (s.filter (fun r => r.parent_id == some p)).map (fun r => r.id)

/-- Breadth-first expansion of the recursive CTE `descendants` of
`update_todo`: `frontier` is the current generation, each step appends the
children of the frontier.  Fuel bounds the number of generations. -/
def descLevels : Nat → State → List Nat → List Nat
  | 0, _, _ => []
  | fuel + 1, s, frontier =>
      frontier ++ descLevels fuel s (frontier.flatMap (childIdsOf s))

/-- All transitive descendants of `x` as enumerated by the recursive CTE in
`update_todo` (fuel `s.length` generations, enough for any acyclic state). -/
def descIds (s : State) (x : Nat) : List Nat :=
  descLevels s.length s (childIdsOf s x)

/-- The `new_parent_status` computed by the cascade-up loop of
`update_todo`: `total > 0 && total == completed_count` over the direct
children of `pid` (`COUNT(*)` and
`SUM(CASE WHEN completed THEN 1 ELSE 0 END)`, `db.rs` lines 210-217). -/
def newParentStatus (s : State) (pid : Nat) : Bool :=
  decide (0 < s.countP (fun q => q.parent_id == some pid)) &&
    decide (s.countP (fun q => q.parent_id == some pid) =
      s.countP (fun q => q.parent_id == some pid && q.completed))

/-- Phase 3 of `update_todo` (cascade up), the `loop` in `db.rs` lines
192-228: look up the parent of `current`; stop at a root; otherwise
recompute the parent's `completed` as `newParentStatus` over its direct
children and continue from the parent.  A failing row lookup is the
`query_row` error that rolls the transaction back (`none`).  The source
loop is unbounded; fuel exhaustion (also `none`) models divergence and is
never reached from an acyclic, parent-closed state when the fuel exceeds
the row count. -/
def cascadeUp : Nat → State → Nat → Option State
  | 0, _, _ => none
  | fuel + 1, s, current =>
      match s.find? (fun r => r.id == current) with
      | none => none
      | some r =>
          match r.parent_id with
          | none => some s
          | some pid =>
              cascadeUp fuel
                (s.map (fun q =>
                  if q.id == pid
                  then { q with completed := newParentStatus s pid } else q))
                pid

/-- `update_todo` (`db.rs` lines 162-234), the `set_completed` entry point:
one transaction doing (1) set `completed` on the target row, (2) cascade
the same value down to every descendant from the recursive CTE, (3) walk
up from the target recomputing each ancestor's `completed` from its
children.  `none` is a rolled-back (or diverging) transaction. -/
def update_todo (s : State) (x : Nat) (b : Bool) : Option State :=
  let s1 := s.map (fun r => if r.id == x then { r with completed := b } else r)
  let s2 := s1.map (fun r =>
    if (descIds s1 x).contains r.id then { r with completed := b } else r)
  cascadeUp (s.length + 1) s2 x

/-- `update_todo_text` (`db.rs` lines 236-247):
`UPDATE todos SET text = ?1 WHERE id = ?2`. -/
def update_todo_text (s : State) (x : Nat) (t : String) : State :=
  s.map (fun r => if r.id == x then { r with text := t } else r)

/-- `delete_todo` (`db.rs` lines 249-260): `DELETE FROM todos WHERE id = ?1`.
The `ON DELETE CASCADE` declared in `init_db` is inert because
`PRAGMA foreign_keys` is never enabled on the connection (SQLite default:
off), so only the rows whose `id` matches are removed. -/
def delete_todo (s : State) (x : Nat) : State :=
  s.filter (fun r => !(r.id == x))

/-- Step 2 of `move_todo`: `UPDATE todos SET position = position - 1 WHERE
parent_id = ? AND position > ?` (resp. `parent_id IS NULL` when the source
group is the root; the two SQL branches together are exactly equality of
the optional parent, so each shift is one conditional map). -/
def shiftOutRow (p0 : Option Nat) (q0 : Int) (r : Todo) : Todo :=
  if r.parent_id == p0 && decide (q0 < r.position)
  then { r with position := r.position - 1 } else r

def moveShiftOut (p0 : Option Nat) (q0 : Int) (s : State) : State :=
  s.map (shiftOutRow p0 q0)

/-- Row action of step 3 of `move_todo`. -/
def shiftInRow (tp : Option Nat) (t : Int) (r : Todo) : Todo :=
  if r.parent_id == tp && decide (t ≤ r.position)
  then { r with position := r.position + 1 } else r

/-- Step 3 of `move_todo`: `UPDATE todos SET position = position + 1 WHERE
parent_id = ? AND position >= ?` (resp. `parent_id IS NULL`). -/
def moveShiftIn (tp : Option Nat) (t : Int) (s : State) : State :=
  s.map (shiftInRow tp t)

/-- Row action of step 4 of `move_todo`. -/
def setRowRow (x : Nat) (tp : Option Nat) (t : Int) (r : Todo) : Todo :=
  if r.id == x then { r with parent_id := tp, position := t } else r

/-- Step 4 of `move_todo`:
`UPDATE todos SET parent_id = ?, position = ? WHERE id = ?`. -/
def moveSetRow (x : Nat) (tp : Option Nat) (t : Int) (s : State) : State :=
  s.map (setRowRow x tp t)

/-- `move_todo` (`db.rs` lines 262-311), one transaction: (1) read the
moved row's `(parent_id, position)`, failing (rollback, `none`) when the
id is absent; (2) close the gap in the source sibling group; (3) open a
gap in the target group; (4) write the moved row's new parent and
position. -/
def move_todo (s : State) (x : Nat) (tp : Option Nat) (t : Int) :
    Option State :=
  match s.find? (fun r => r.id == x) with
  | none => none
  | some rx =>
      some (moveSetRow x tp t
        (moveShiftIn tp t (moveShiftOut rx.parent_id rx.position s)))

/-- `set_todo_count` (`db.rs` lines 313-326):
`UPDATE todos SET target_count = ?1, current_count = ?2 WHERE id = ?3`
with `current_count = count.unwrap_or(0)`. -/
def set_todo_count (s : State) (x : Nat) (count : Option Int) : State :=
  s.map (fun r =>
    if r.id == x then { r with target_count := count
                               current_count := count.getD 0 } else r)

/-- First statement of `decrement_todo`:
`UPDATE todos SET current_count = current_count - 1
 WHERE id = ? AND current_count > 0` (floor at 0). -/
def decrementStep (s : State) (x : Nat) : State :=
  s.map (fun r =>
    if r.id == x && decide (0 < r.current_count)
    then { r with current_count := r.current_count - 1 } else r)

/-- `decrement_todo` (`db.rs` lines 328-352): decrement with floor 0, then
read `current_count` back (`none` = `query_row` error when the id is
absent); if it is `≤ 0`, call `update_todo(id, true)` to run the full
completion cascade.  No transaction wraps the two statements. -/
def decrement_todo (s : State) (x : Nat) : Option State :=
  let s1 := decrementStep s x
  match s1.find? (fun r => r.id == x) with
  | none => none
  | some r => if r.current_count ≤ 0 then update_todo s1 x true else some s1

/-- `reset_all_todos` (`db.rs` lines 354-366):
`UPDATE todos SET completed = 0, current_count = COALESCE(target_count, 0)`. -/
def reset_all_todos (s : State) : State :=
  s.map (fun r => { r with completed := false
                           current_count := r.target_count.getD 0 })

/-- The positions of the root sibling group (`WHERE parent_id IS NULL`),
in row order. -/
def rootPositions (s : State) : List Int :=
  (s.filter (fun r => r.parent_id == none)).map (fun r => r.position)

/-- `COALESCE(MAX(position), -1)` over the root sibling group, as queried
by `save_todo`: SQL `MAX` is `NULL` only on an empty group (giving `-1`
through `COALESCE`), and otherwise the true maximum of the group's
positions, even when that maximum is below `-1`. -/
def rootMaxPos (s : State) : Int :=
  match rootPositions s with
  | [] => -1
  | z :: zs => zs.foldr max z

/-- The rowid `AUTOINCREMENT` assigns to the next inserted row. -/
def nextId (s : State) : Nat := (ids s).foldr max 0 + 1

/-- `save_todo` (`db.rs` lines 137-160): insert a new root row with
`completed = false`, `parent_id = NULL` and
`position = COALESCE(MAX(position), -1) + 1` over the root group. -/
def save_todo (s : State) (t : String) : State :=
  s ++ [{ id := nextId s, text := t, completed := false, parent_id := none,
          position := rootMaxPos s + 1, target_count := none,
          current_count := 0 }]

/-- Insertion step of the position sort used to model `ORDER BY position
ASC` (ties are in unspecified order in SQLite; the claims below only use
states where it does not matter). -/
def insertByPos (r : Todo) : State → State
  | [] => [r]
  | q :: l =>
      if q.position ≤ r.position then q :: insertByPos r l else r :: q :: l

/-- Sort rows by `position` ascending. -/
def sortByPos : State → State
  | [] => []
  | q :: l => insertByPos q (sortByPos l)

/-- `get_todos` (`db.rs` lines 111-135):
`SELECT ... FROM todos ORDER BY position ASC`. -/
def get_todos (s : State) : State := sortByPos s

/-- Command `update_todo_status` (`lib.rs` lines 48-51): calls
`db::update_todo` and discards any error (`let _ = ...`), so a rolled-back
transaction leaves the stored state unchanged and surfaces nothing. -/
def update_todo_status (s : State) (x : Nat) (b : Bool) : State :=
  (update_todo s x b).getD s

/-- Command `remove_todo_item` (`lib.rs` lines 53-56): `db::delete_todo`
with the error discarded (the delete statement itself cannot fail on a
missing id). -/
def remove_todo_item (s : State) (x : Nat) : State :=
  delete_todo s x

/-- Command `move_todo_item` (`lib.rs` lines 58-65): calls `db::move_todo`
and only logs the outcome, so a rolled-back transaction leaves the state
unchanged. -/
def move_todo_item (s : State) (x : Nat) (tp : Option Nat) (t : Int) : State :=
  (move_todo s x tp t).getD s

/-- Command `decrement_todo` (`lib.rs` lines 77-80): calls
`db::decrement_todo` and discards the error.  The two statements share no
transaction, so on an error the state persisted is the one after the first
(floored) decrement statement. -/
def decrement_todo_cmd (s : State) (x : Nat) : State :=
  (decrement_todo s x).getD (decrementStep s x)

/-- Ids are unique (SQLite `INTEGER PRIMARY KEY`). -/
def NodupIds (s : State) : Prop := (ids s).Nodup

/-- Every stored `parent_id` refers to a stored row. -/
def Closed (s : State) : Prop :=
  ∀ r ∈ s, ∀ p, r.parent_id = some p → p ∈ ids s

/-- A rank function witnessing that the parent relation is acyclic:
every stored parent link strictly decreases `d`. -/
def Ranked (s : State) (d : Nat → Nat) : Prop :=
  ∀ r ∈ s, ∀ p, r.parent_id = some p → d p < d r.id

/-- One step up the parent relation. -/
def Step (s : State) (a b : Nat) : Prop := parentOf s a = some b

/-- `b` is reached from `a` by at least one step up the parent chain
(so `a` is a proper descendant of `b`). -/
def ReachesUp (s : State) (a b : Nat) : Prop :=
  Relation.TransGen (Step s) a b

/-- The parent relation has no cycle. -/
def Acyclic (s : State) : Prop := ∀ a, ¬ ReachesUp s a a

/-- Number of rows of sibling group `p` (root group for `none`). -/
def grpLen (s : State) (p : Option Nat) : Nat :=
  s.countP (fun r => r.parent_id == p)

/-- Number of rows of sibling group `p` sitting at position `i`. -/
def grpCount (s : State) (p : Option Nat) (i : Int) : Nat :=
  s.countP (fun r => r.parent_id == p && r.position == i)

/-- The positions of sibling group `p` are exactly `{0, ..., k-1}`, each
taken once. -/
def DensePosAt (s : State) (p : Option Nat) : Prop :=
  ∀ i : Int, grpCount s p i = if 0 ≤ i ∧ i < (grpLen s p : Int) then 1 else 0

/-- Every sibling group's positions are exactly `{0, ..., k-1}`. -/
def DensePos (s : State) : Prop := ∀ p, DensePosAt s p

/-! ## Claim C1: delete and descendants -/

/-- The concrete failing state for C1: node `A` (id 1) at root and node
`B` (id 2) moved under `A`, built by the store's own operations. -/
def c1State : State :=
  (move_todo (save_todo (save_todo [] "A") "B") 2 (some 1) 0).getD []

/-- C1 (code bug): `delete(id)` is claimed to remove the node and every
transitive descendant, leaving no row whose `parent_id` dangles.  On the
state where node 2 is a child of node 1, `delete_todo 1` removes only row
1: row 2 survives with `parent_id = some 1` although id 1 is gone — the
schema's `ON DELETE CASCADE` is never activated because the code never
issues `PRAGMA foreign_keys = ON`. -/
theorem c1_delete_leaves_orphan :
    move_todo (save_todo (save_todo [] "A") "B") 2 (some 1) 0 = some c1State ∧
    delete_todo c1State 1 =
      [{ id := 2, text := "B", completed := false, parent_id := some 1,
         position := 0, target_count := none, current_count := 0 }] ∧
    (∃ r ∈ delete_todo c1State 1, r.parent_id = some 1) ∧
    1 ∉ ids (delete_todo c1State 1) := by
  refine ⟨rfl, rfl, ?_, ?_⟩ <;> decide

/-! ## Claim C5: move scenario -/

/-- The C5 build-up: create `A`, `B`, `C` at root, then make `C` the
(only, position-0) child of `A`. -/
def c5Setup : State :=
  (move_todo (save_todo (save_todo (save_todo [] "A") "B") "C")
    3 (some 1) 0).getD []

/-- C5: from the empty store, after creating `A` and `B` at root
(positions 0 and 1) and `C` as child of `A` at position 0, the call
`move(C, None, 1)` followed by `read_all()` yields, restricted to the root
group and sorted by position, the order `[A, C, B]` with positions
`[0, 1, 2]`. -/
theorem c5_move_c_between_a_and_b :
    move_todo (save_todo (save_todo (save_todo [] "A") "B") "C")
        3 (some 1) 0 = some c5Setup ∧
    ((c5Setup.filter (fun r => r.parent_id == some 1)).map
        (fun r => (r.text, r.position)) = [("C", 0)]) ∧
    ∃ s, move_todo c5Setup 3 none 1 = some s ∧
      ((get_todos s).filter (fun r => r.parent_id == none)).map
          (fun r => (r.text, r.position)) =
        [("A", 0), ("C", 1), ("B", 2)] := by
  refine ⟨rfl, by decide, _, rfl, by decide⟩

/-! ## Claim C9: reset_all frame property -/

/-- C9: `reset_all()` sets every node's `completed` to `false` and
`current_count` to `target_count` (0 when absent), keeps `id`, `text`,
`parent_id`, `position` and `target_count` of every node unchanged, and
neither adds nor removes rows. -/
theorem c9_reset_all_frame (s : State) :
    (reset_all_todos s).length = s.length ∧
    List.Forall₂ (fun a b =>
      b.id = a.id ∧ b.text = a.text ∧ b.parent_id = a.parent_id ∧
      b.position = a.position ∧ b.target_count = a.target_count ∧
      b.completed = false ∧ b.current_count = a.target_count.getD 0)
      s (reset_all_todos s) := by
  constructor
  · simp [reset_all_todos]
  · induction s with
    | nil => exact List.Forall₂.nil
    | cons r t ih =>
        simp only [reset_all_todos, List.map_cons] at ih ⊢
        exact List.Forall₂.cons (by simp) ih

/-! ## Lookup and counting lemmas -/

lemma lookupTodo_eq_some {s : State} {i : Nat} {r : Todo}
    (h : lookupTodo s i = some r) : r ∈ s ∧ r.id = i := by
  refine ⟨List.mem_of_find?_eq_some h, ?_⟩
  simpa using List.find?_some h

lemma lookupTodo_isSome {s : State} {i : Nat} (h : i ∈ ids s) :
    ∃ r, lookupTodo s i = some r := by
  cases hfind : lookupTodo s i with
  | some r' => exact ⟨r', rfl⟩
  | none =>
      exfalso
      rcases List.mem_map.1 h with ⟨r, hr, hid⟩
      exact (List.find?_eq_none.1 hfind) r hr (by simp [hid])

lemma lookupTodo_eq_none {s : State} {i : Nat} (h : i ∉ ids s) :
    lookupTodo s i = none := by
  apply List.find?_eq_none.2
  intro r hr hp
  exact h (List.mem_map.2 ⟨r, hr, by simpa using hp⟩)

lemma lookupTodo_mem_ids {s : State} {i : Nat} {r : Todo}
    (h : lookupTodo s i = some r) : i ∈ ids s := by
  rcases lookupTodo_eq_some h with ⟨hm, hid⟩
  exact List.mem_map.2 ⟨r, hm, hid⟩

lemma nodupIds_cons {r : Todo} {t : State} (h : NodupIds (r :: t)) :
    r.id ∉ ids t ∧ NodupIds t := by
  simpa [NodupIds, ids] using h

lemma lookupTodo_self {s : State} (hnd : NodupIds s) {r : Todo} (hr : r ∈ s) :
    lookupTodo s r.id = some r := by
  induction s with
  | nil => cases hr
  | cons h t ih =>
      rcases List.mem_cons.1 hr with rfl | hrt
      · simp [lookupTodo, List.find?]
      · have hne : (h.id == r.id) = false := by
          have h1 : h.id ∉ ids t := (nodupIds_cons hnd).1
          have h2 : r.id ∈ ids t := List.mem_map.2 ⟨r, hrt, rfl⟩
          simp only [beq_eq_false_iff_ne, ne_eq]
          intro he
          exact h1 (he ▸ h2)
        unfold lookupTodo
        rw [List.find?_cons_of_neg _ (by simp [hne])]
        exact ih (nodupIds_cons hnd).2 hrt

lemma countP_lt_of_mem {l : List Todo} {p q : Todo → Bool} {x : Todo}
    (hx : x ∈ l) (hpx : p x = false) (hqx : q x = true)
    (h : ∀ a ∈ l, p a = true → q a = true) :
    l.countP p < l.countP q := by
  rcases List.append_of_mem hx with ⟨l₁, l₂, rfl⟩
  rw [List.countP_append, List.countP_append, List.countP_cons,
    List.countP_cons, hpx, hqx]
  have h₁ : l₁.countP p ≤ l₁.countP q :=
    List.countP_mono_left (fun a ha => h a (by simp [ha]))
  have h₂ : l₂.countP p ≤ l₂.countP q :=
    List.countP_mono_left (fun a ha => h a (by simp [ha]))
  simp only [Bool.false_eq_true, if_false, if_true]
  omega

/-! ## Transfer lemmas for row maps that keep `id` and `parent_id` -/

section PreservingMap

variable {f : Todo → Todo}

lemma ids_map_of_id (hid : ∀ r, (f r).id = r.id) (s : State) :
    ids (s.map f) = ids s := by
  simp [ids, List.map_map, Function.comp_def, hid]

lemma lookupTodo_map_of_id (hid : ∀ r, (f r).id = r.id) (s : State) (i : Nat) :
    lookupTodo (s.map f) i = (lookupTodo s i).map f := by
  unfold lookupTodo
  rw [List.find?_map]
  have h1 : ((fun r : Todo => r.id == i) ∘ f) = (fun r : Todo => r.id == i) :=
    funext fun r => by simp [Function.comp, hid]
  rw [h1]

lemma parentOf_map_of_id (hid : ∀ r, (f r).id = r.id)
    (hpar : ∀ r, (f r).parent_id = r.parent_id) (s : State) (i : Nat) :
    parentOf (s.map f) i = parentOf s i := by
  unfold parentOf
  rw [lookupTodo_map_of_id hid]
  cases lookupTodo s i <;> simp [hpar]

lemma step_map_of_id (hid : ∀ r, (f r).id = r.id)
    (hpar : ∀ r, (f r).parent_id = r.parent_id) (s : State) (a b : Nat) :
    Step (s.map f) a b ↔ Step s a b := by
  unfold Step
  rw [parentOf_map_of_id hid hpar]

lemma reachesUp_map_of_id (hid : ∀ r, (f r).id = r.id)
    (hpar : ∀ r, (f r).parent_id = r.parent_id) (s : State) (a b : Nat) :
    ReachesUp (s.map f) a b ↔ ReachesUp s a b := by
  constructor
  · exact Relation.TransGen.mono
      (fun x y hxy => (step_map_of_id hid hpar s x y).1 hxy)
  · exact Relation.TransGen.mono
      (fun x y hxy => (step_map_of_id hid hpar s x y).2 hxy)

lemma countP_map_of_pred {p : Todo → Bool} (hf : ∀ r, p (f r) = p r)
    (s : State) : (s.map f).countP p = s.countP p := by
  rw [List.countP_map]
  exact List.countP_congr (fun a _ => by simp [Function.comp, hf a])

lemma nodupIds_map_of_id (hid : ∀ r, (f r).id = r.id) (s : State) :
    NodupIds (s.map f) ↔ NodupIds s := by
  unfold NodupIds
  rw [ids_map_of_id hid]

lemma closed_map_of_id (hid : ∀ r, (f r).id = r.id)
    (hpar : ∀ r, (f r).parent_id = r.parent_id) (s : State) :
    Closed (s.map f) ↔ Closed s := by
  unfold Closed
  rw [ids_map_of_id hid]
  constructor
  · intro h r hr p hp
    exact h (f r) (List.mem_map_of_mem f hr) p (by rw [hpar]; exact hp)
  · intro h r hr p hp
    rcases List.mem_map.1 hr with ⟨q, hq, rfl⟩
    exact h q hq p (by rw [hpar] at hp; exact hp)

lemma ranked_map_of_id (hid : ∀ r, (f r).id = r.id)
    (hpar : ∀ r, (f r).parent_id = r.parent_id) (s : State) (d : Nat → Nat) :
    Ranked (s.map f) d ↔ Ranked s d := by
  unfold Ranked
  constructor
  · intro h r hr p hp
    have := h (f r) (List.mem_map_of_mem f hr) p (by rw [hpar]; exact hp)
    rwa [hid] at this
  · intro h r hr p hp
    rcases List.mem_map.1 hr with ⟨q, hq, rfl⟩
    rw [hid]
    exact h q hq p (by rw [hpar] at hp; exact hp)

lemma childIdsOf_map_of_id (hid : ∀ r, (f r).id = r.id)
    (hpar : ∀ r, (f r).parent_id = r.parent_id) (s : State) (p : Nat) :
    childIdsOf (s.map f) p = childIdsOf s p := by
  unfold childIdsOf
  rw [List.filter_map, List.map_map]
  have h1 : ((fun r : Todo => r.parent_id == some p) ∘ f) =
      (fun r : Todo => r.parent_id == some p) :=
    funext fun r => by simp [Function.comp, hpar]
  rw [h1]
  exact List.map_congr_left (fun a _ => hid a)

end PreservingMap

/-! ## Maps that change only the `completed` flag -/

/-- Rewrite every row's `completed` flag through `f`, leaving every other
column unchanged.  Every write performed by the completion cascade is of
this shape. -/
def CompletedMap (f : Todo → Bool) (s : State) : State :=
  s.map (fun r => { r with completed := f r })

lemma completedMap_hid (f : Todo → Bool) :
    ∀ r : Todo, ((fun r : Todo => { r with completed := f r }) r).id = r.id :=
  fun _ => rfl

lemma completedMap_hpar (f : Todo → Bool) :
    ∀ r : Todo,
      ((fun r : Todo => { r with completed := f r }) r).parent_id =
        r.parent_id :=
  fun _ => rfl

lemma completedMap_comp (f g : Todo → Bool) (s : State) :
    CompletedMap g (CompletedMap f s) =
      CompletedMap (fun r => g { r with completed := f r }) s := by
  unfold CompletedMap
  rw [List.map_map]
  rfl

lemma completedMap_self (s : State) :
    CompletedMap (fun r => r.completed) s = s := by
  unfold CompletedMap
  simp

lemma ids_completedMap (f : Todo → Bool) (s : State) :
    ids (CompletedMap f s) = ids s :=
  ids_map_of_id (completedMap_hid f) s

lemma lookupTodo_completedMap (f : Todo → Bool) (s : State) (i : Nat) :
    lookupTodo (CompletedMap f s) i =
      (lookupTodo s i).map (fun r => { r with completed := f r }) :=
  lookupTodo_map_of_id (completedMap_hid f) s i

lemma parentOf_completedMap (f : Todo → Bool) (s : State) (i : Nat) :
    parentOf (CompletedMap f s) i = parentOf s i :=
  parentOf_map_of_id (completedMap_hid f) (completedMap_hpar f) s i

lemma step_completedMap (f : Todo → Bool) (s : State) (a b : Nat) :
    Step (CompletedMap f s) a b ↔ Step s a b :=
  step_map_of_id (completedMap_hid f) (completedMap_hpar f) s a b

lemma reachesUp_completedMap (f : Todo → Bool) (s : State) (a b : Nat) :
    ReachesUp (CompletedMap f s) a b ↔ ReachesUp s a b :=
  reachesUp_map_of_id (completedMap_hid f) (completedMap_hpar f) s a b

lemma nodupIds_completedMap (f : Todo → Bool) (s : State) :
    NodupIds (CompletedMap f s) ↔ NodupIds s :=
  nodupIds_map_of_id (completedMap_hid f) s

lemma closed_completedMap (f : Todo → Bool) (s : State) :
    Closed (CompletedMap f s) ↔ Closed s :=
  closed_map_of_id (completedMap_hid f) (completedMap_hpar f) s

lemma ranked_completedMap (f : Todo → Bool) (s : State) (d : Nat → Nat) :
    Ranked (CompletedMap f s) d ↔ Ranked s d :=
  ranked_map_of_id (completedMap_hid f) (completedMap_hpar f) s d

lemma childIdsOf_completedMap (f : Todo → Bool) (s : State) (p : Nat) :
    childIdsOf (CompletedMap f s) p = childIdsOf s p :=
  childIdsOf_map_of_id (completedMap_hid f) (completedMap_hpar f) s p

lemma completedOf_completedMap (f : Todo → Bool) (s : State) (i : Nat) :
    completedOf (CompletedMap f s) i =
      ((lookupTodo s i).map f).getD false := by
  unfold completedOf
  rw [lookupTodo_completedMap]
  cases lookupTodo s i <;> simp

lemma currentOf_completedMap (f : Todo → Bool) (s : State) (i : Nat) :
    currentOf (CompletedMap f s) i = currentOf s i := by
  unfold currentOf
  rw [lookupTodo_completedMap]
  cases lookupTodo s i <;> simp

lemma map_ite_completed (c : Todo → Bool) (b : Bool) (s : State) :
    s.map (fun r => if c r then { r with completed := b } else r) =
      CompletedMap (fun r => if c r then b else r.completed) s := by
  unfold CompletedMap
  refine List.map_congr_left (fun r _ => ?_)
  by_cases h : c r = true <;> simp [h]

/-! ## Rank and acyclicity -/

lemma reach_rank {s : State} {d : Nat → Nat} (hrk : Ranked s d) {a b : Nat}
    (h : ReachesUp s a b) : d b < d a := by
  induction h with
  | single h1 =>
      unfold Step parentOf at h1
      cases hl : lookupTodo s a with
      | none => rw [hl] at h1; cases h1
      | some r =>
          rw [hl] at h1
          rcases lookupTodo_eq_some hl with ⟨hm, hidr⟩
          have := hrk r hm _ h1
          rwa [hidr] at this
  | tail h1 h2 ih =>
      unfold Step parentOf at h2
      rename_i mid c
      cases hl : lookupTodo s mid with
      | none => rw [hl] at h2; cases h2
      | some r =>
          rw [hl] at h2
          rcases lookupTodo_eq_some hl with ⟨hm, hidr⟩
          have := hrk r hm _ h2
          rw [hidr] at this
          omega

lemma ranked_acyclic {s : State} {d : Nat → Nat} (hrk : Ranked s d) :
    Acyclic s := by
  intro a h
  exact absurd (reach_rank hrk h) (lt_irrefl _)

/-! ## Soundness of the descendant enumeration -/

lemma parentOf_eq {s : State} {i : Nat} {r : Todo}
    (h : lookupTodo s i = some r) : parentOf s i = r.parent_id := by
  unfold parentOf
  rw [h]

lemma completedOf_eq {s : State} {i : Nat} {r : Todo}
    (h : lookupTodo s i = some r) : completedOf s i = r.completed := by
  unfold completedOf
  rw [h]

lemma currentOf_eq {s : State} {i : Nat} {r : Todo}
    (h : lookupTodo s i = some r) : currentOf s i = r.current_count := by
  unfold currentOf
  rw [h]

lemma childIdsOf_step {s : State} (hnd : NodupIds s) {a p : Nat}
    (h : a ∈ childIdsOf s p) : Step s a p := by
  unfold childIdsOf at h
  rcases List.mem_map.1 h with ⟨r, hr, rfl⟩
  have hrf := List.mem_filter.1 hr
  have hpar : r.parent_id = some p := by simpa using hrf.2
  unfold Step
  rw [parentOf_eq (lookupTodo_self hnd hrf.1)]
  exact hpar

lemma descLevels_sound {s : State} (hnd : NodupIds s) {x : Nat} :
    ∀ (fuel : Nat) (frontier : List Nat),
      (∀ a ∈ frontier, ReachesUp s a x) →
      ∀ y ∈ descLevels fuel s frontier, ReachesUp s y x := by
  intro fuel
  induction fuel with
  | zero => intro frontier _ y hy; cases hy
  | succ n ih =>
      intro frontier hf y hy
      unfold descLevels at hy
      rcases List.mem_append.1 hy with h1 | h2
      · exact hf y h1
      · refine ih _ ?_ y h2
        intro a ha
        rcases List.mem_flatMap.1 ha with ⟨b, hb, hab⟩
        exact Relation.TransGen.head (childIdsOf_step hnd hab) (hf b hb)

lemma descIds_sound {s : State} (hnd : NodupIds s) {x y : Nat}
    (h : y ∈ descIds s x) : ReachesUp s y x := by
  unfold descIds at h
  refine descLevels_sound hnd _ _ ?_ y h
  intro a ha
  exact Relation.TransGen.single (childIdsOf_step hnd ha)

/-! ## Unfolding and structure of the cascade-up loop -/

lemma step_of_find {s : State} {c pid : Nat} {r : Todo}
    (hfind : s.find? (fun q => q.id == c) = some r)
    (hp : r.parent_id = some pid) : Step s c pid := by
  unfold Step
  rw [parentOf_eq hfind]
  exact hp

lemma cascadeUp_none {fuel : Nat} {s : State} {c : Nat}
    (h : s.find? (fun r => r.id == c) = none) :
    cascadeUp (fuel + 1) s c = none := by
  unfold cascadeUp
  rw [h]

lemma cascadeUp_found {fuel : Nat} {s : State} {c : Nat} {r : Todo}
    (h : s.find? (fun r => r.id == c) = some r) :
    cascadeUp (fuel + 1) s c =
      (match r.parent_id with
       | none => some s
       | some pid =>
           cascadeUp fuel
             (s.map (fun q =>
               if q.id == pid
               then { q with completed := newParentStatus s pid } else q))
             pid) := by
  simp only [cascadeUp]
  rw [h]

lemma cascadeUp_root {fuel : Nat} {s : State} {c : Nat} {r : Todo}
    (h : s.find? (fun r => r.id == c) = some r) (hp : r.parent_id = none) :
    cascadeUp (fuel + 1) s c = some s := by
  rw [cascadeUp_found h, hp]

lemma cascadeUp_step {fuel : Nat} {s : State} {c : Nat} {r : Todo} {pid : Nat}
    (h : s.find? (fun r => r.id == c) = some r)
    (hp : r.parent_id = some pid) :
    cascadeUp (fuel + 1) s c =
      cascadeUp fuel
        (CompletedMap
          (fun q => if q.id == pid then newParentStatus s pid
                    else q.completed) s)
        pid := by
  rw [cascadeUp_found h, hp]
  show cascadeUp fuel
      (s.map (fun q =>
        if q.id == pid
        then { q with completed := newParentStatus s pid } else q)) pid = _
  rw [map_ite_completed]

lemma cascadeUp_shape :
    ∀ {fuel : Nat} {s : State} {c : Nat} {s' : State},
      cascadeUp fuel s c = some s' →
      ∃ f, s' = CompletedMap f s ∧
        ∀ r : Todo, f r ≠ r.completed → ReachesUp s c r.id := by
  intro fuel
  induction fuel with
  | zero => intro s c s' h; cases h
  | succ n ih =>
      intro s c s' h
      cases hfind : s.find? (fun r => r.id == c) with
      | none => rw [cascadeUp_none hfind] at h; cases h
      | some r =>
          cases hp : r.parent_id with
          | none =>
              rw [cascadeUp_root hfind hp] at h
              cases h
              exact ⟨fun q => q.completed, (completedMap_self s).symm,
                fun q hq => absurd rfl hq⟩
          | some pid =>
              rw [cascadeUp_step hfind hp] at h
              rcases ih h with ⟨f₁, rfl, htouch⟩
              rw [completedMap_comp]
              refine ⟨_, rfl, ?_⟩
              intro q hq
              by_cases hcase :
                  f₁ { q with completed :=
                    if q.id == pid then newParentStatus s pid
                    else q.completed } =
                  (if q.id == pid then newParentStatus s pid
                   else q.completed)
              · rw [hcase] at hq
                have hqid : q.id = pid := by
                  by_cases hb : (q.id == pid) = true
                  · simpa using hb
                  · rw [Bool.not_eq_true] at hb
                    rw [hb] at hq
                    simp at hq
                rw [hqid]
                exact Relation.TransGen.single (step_of_find hfind hp)
              · have h2 := htouch _ hcase
                rw [reachesUp_completedMap] at h2
                exact Relation.TransGen.head (step_of_find hfind hp) h2

lemma countP_completedMap_id (f p : Todo → Bool)
    (hp : ∀ r : Todo, p { r with completed := f r } = p r) (s : State) :
    (CompletedMap f s).countP p = s.countP p :=
  countP_map_of_pred hp s

lemma cascadeUp_total {d : Nat → Nat} :
    ∀ (fuel : Nat) (s : State) (c : Nat),
      NodupIds s → Closed s → Ranked s d → c ∈ ids s →
      s.countP (fun r => decide (d r.id < d c)) < fuel →
      ∃ s', cascadeUp fuel s c = some s' := by
  intro fuel
  induction fuel with
  | zero => intro s c _ _ _ _ hlt; omega
  | succ n ih =>
      intro s c hnd hcl hrk hc hfuel
      rcases lookupTodo_isSome hc with ⟨r, hl⟩
      have hfind : s.find? (fun q => q.id == c) = some r := hl
      rcases lookupTodo_eq_some hl with ⟨hmem, hid⟩
      cases hp : r.parent_id with
      | none => exact ⟨s, cascadeUp_root hfind hp⟩
      | some pid =>
          rw [cascadeUp_step hfind hp]
          have hdp : d pid < d c := by
            have := hrk r hmem pid hp
            rwa [hid] at this
          have hpid : pid ∈ ids s := hcl r hmem pid hp
          apply ih
          · exact (nodupIds_completedMap _ s).2 hnd
          · exact (closed_completedMap _ s).2 hcl
          · exact (ranked_completedMap _ s d).2 hrk
          · rw [ids_completedMap]; exact hpid
          · rw [countP_completedMap_id
                (fun q => if q.id == pid then newParentStatus s pid
                          else q.completed)
                (fun q => decide (d q.id < d pid)) (fun q => rfl)]
            have hm : s.countP (fun q => decide (d q.id < d pid)) <
                s.countP (fun q => decide (d q.id < d c)) := by
              rcases lookupTodo_isSome hpid with ⟨rp, hlp⟩
              rcases lookupTodo_eq_some hlp with ⟨hmp, hidp⟩
              refine countP_lt_of_mem hmp ?_ ?_ ?_
              · simp [hidp]
              · simp [hidp, hdp]
              · intro a _ ha
                simp only [decide_eq_true_eq] at ha ⊢
                omega
            omega

/-! ## Normal form of `update_todo` and its specification -/

lemma countP_completedMap (F p : Todo → Bool) (s : State) :
    (CompletedMap F s).countP p =
      s.countP (fun r => p { r with completed := F r }) := by
  unfold CompletedMap
  rw [List.countP_map]
  rfl

lemma lookupTodo_completedMap_some {f : Todo → Bool} {s : State} {i : Nat}
    {r : Todo} (h : lookupTodo s i = some r) :
    lookupTodo (CompletedMap f s) i = some { r with completed := f r } := by
  rw [lookupTodo_completedMap, h]
  rfl

lemma completedOf_completedMap_eq {f : Todo → Bool} {s : State} {i : Nat}
    {r : Todo} (h : lookupTodo s i = some r) :
    completedOf (CompletedMap f s) i = f r :=
  completedOf_eq (lookupTodo_completedMap_some h)

/-- The completion state written by phases 1 and 2 of `update_todo`
(target row and cascade down), as a single `CompletedMap` over the
starting state. -/
lemma update_todo_eq (s : State) (x : Nat) (b : Bool) :
    update_todo s x b =
      cascadeUp (s.length + 1)
        (CompletedMap
          (fun r =>
            if (descIds
                (CompletedMap (fun q => if q.id == x then b else q.completed) s)
                x).contains r.id
            then b else r.completed)
          (CompletedMap (fun q => if q.id == x then b else q.completed) s))
        x := by
  simp only [update_todo]
  rw [map_ite_completed (fun r => r.id == x) b s]
  rw [map_ite_completed]

/-- The recomputed status the cascade-up loop writes into the parent `P`
of the updated node `x`: all of `P`'s direct children complete, where `x`
itself counts with the new value `b`. -/
def recomputedStatus (s : State) (x : Nat) (b : Bool) (P : Nat) : Bool :=
  decide (0 < grpLen s (some P)) &&
    decide (grpLen s (some P) =
      s.countP (fun q => q.parent_id == some P &&
        (if q.id == x then b else q.completed)))

lemma sibling_not_reach {s : State} {d : Nat → Nat} {x y P : Nat}
    {rx ry : Todo} (hrk : Ranked s d)
    (hx : lookupTodo s x = some rx) (hrxp : rx.parent_id = some P)
    (hy : lookupTodo s y = some ry) (hryp : ry.parent_id = some P) :
    ¬ ReachesUp s y x := by
  intro h
  rcases Relation.TransGen.head'_iff.1 h with ⟨c, hstep, hrest⟩
  have hc : c = P := by
    unfold Step at hstep
    rw [parentOf_eq hy, hryp] at hstep
    exact (Option.some_inj.1 hstep).symm
  rw [hc] at hrest
  rcases Relation.reflTransGen_iff_eq_or_transGen.1 hrest with heq | htg
  · have hself : ReachesUp s x x :=
      Relation.TransGen.single
        (by unfold Step; rw [parentOf_eq hx, heq]; exact hrxp)
    exact absurd (reach_rank hrk hself) (lt_irrefl _)
  · have h1 := reach_rank hrk htg
    have h2 : ReachesUp s x P :=
      Relation.TransGen.single
        (by unfold Step; rw [parentOf_eq hx]; exact hrxp)
    have h3 := reach_rank hrk h2
    omega

lemma countP_congr_bool {l : List Todo} {p q : Todo → Bool}
    (h : ∀ a ∈ l, p a = q a) : l.countP p = l.countP q :=
  List.countP_congr (fun a ha => by rw [h a ha])

/-- Phase 1 of `update_todo` as a completion flag. -/
def updFlag1 (x : Nat) (b : Bool) : Todo → Bool :=
  fun q => if q.id == x then b else q.completed

/-- State after phase 1 of `update_todo`. -/
def updState1 (s : State) (x : Nat) (b : Bool) : State :=
  CompletedMap (updFlag1 x b) s

/-- Phase 2 of `update_todo` (cascade down) as a completion flag. -/
def updFlag2 (s : State) (x : Nat) (b : Bool) : Todo → Bool :=
  fun r =>
    if (descIds (updState1 s x b) x).contains r.id then b else r.completed

/-- State after phases 1 and 2 of `update_todo`. -/
def updState2 (s : State) (x : Nat) (b : Bool) : State :=
  CompletedMap (updFlag2 s x b) (updState1 s x b)

lemma update_todo_eq2 (s : State) (x : Nat) (b : Bool) :
    update_todo s x b = cascadeUp (s.length + 1) (updState2 s x b) x :=
  update_todo_eq s x b

lemma updState2_props (s : State) (x : Nat) (b : Bool) :
    ids (updState2 s x b) = ids s ∧
    (updState2 s x b).length = s.length ∧
    (∀ a c, ReachesUp (updState2 s x b) a c ↔ ReachesUp s a c) := by
  unfold updState2 updState1
  refine ⟨?_, ?_, ?_⟩
  · rw [ids_completedMap, ids_completedMap]
  · unfold CompletedMap
    rw [List.length_map, List.length_map]
  · intro a c
    rw [reachesUp_completedMap, reachesUp_completedMap]

lemma updState2_lookup {s : State} {x : Nat} {rx : Todo} (b : Bool)
    (hl : lookupTodo s x = some rx) :
    lookupTodo (updState2 s x b) x = some { rx with completed := b } := by
  have hid : rx.id = x := (lookupTodo_eq_some hl).2
  unfold updState2 updState1
  rw [lookupTodo_completedMap_some (lookupTodo_completedMap_some hl)]
  simp [updFlag1, updFlag2, hid]

lemma nodupIds_updState1 {s : State} (x : Nat) (b : Bool)
    (hnd : NodupIds s) : NodupIds (updState1 s x b) := by
  unfold updState1
  exact (nodupIds_completedMap _ _).2 hnd

lemma update_spec {s : State} {d : Nat → Nat} {x : Nat} {rx : Todo} (b : Bool)
    (hnd : NodupIds s) (hcl : Closed s) (hrk : Ranked s d)
    (hl : lookupTodo s x = some rx) :
    ∃ s', update_todo s x b = some s' ∧
      (∃ f, s' = CompletedMap f s) ∧
      completedOf s' x = b ∧
      (∀ y, ¬ ReachesUp s y x → ¬ ReachesUp s x y → y ≠ x →
        completedOf s' y = completedOf s y) ∧
      (∀ P, rx.parent_id = some P →
        completedOf s' P = recomputedStatus s x b P) := by
  have hid : rx.id = x := (lookupTodo_eq_some hl).2
  have hmem : rx ∈ s := (lookupTodo_eq_some hl).1
  have hnd2 : NodupIds (updState2 s x b) := by
    unfold updState2 updState1
    exact (nodupIds_completedMap _ _).2 ((nodupIds_completedMap _ _).2 hnd)
  have hcl2 : Closed (updState2 s x b) := by
    unfold updState2 updState1
    exact (closed_completedMap _ _).2 ((closed_completedMap _ _).2 hcl)
  have hrk2 : Ranked (updState2 s x b) d := by
    unfold updState2 updState1
    exact (ranked_completedMap _ _ _).2 ((ranked_completedMap _ _ _).2 hrk)
  have hx2 : x ∈ ids (updState2 s x b) := by
    rw [(updState2_props s x b).1]
    exact lookupTodo_mem_ids hl
  obtain ⟨s', hs'⟩ :=
    cascadeUp_total (s.length + 1) (updState2 s x b) x hnd2 hcl2 hrk2 hx2
      (by
        have h1 : List.countP (fun r : Todo => decide (d r.id < d x))
            (updState2 s x b) ≤ (updState2 s x b).length :=
          List.countP_le_length _
        have h2 := (updState2_props s x b).2.1
        omega)
  obtain ⟨f3, hsf, htouch⟩ := cascadeUp_shape hs'
  have hl2 : lookupTodo (updState2 s x b) x = some { rx with completed := b } :=
    updState2_lookup b hl
  refine ⟨s', by rw [update_todo_eq2]; exact hs', ?_, ?_, ?_, ?_⟩
  · rw [hsf]
    unfold updState2 updState1
    rw [completedMap_comp, completedMap_comp]
    exact ⟨_, rfl⟩
  · rw [hsf, completedOf_completedMap_eq hl2]
    by_cases hc : f3 { rx with completed := b } =
        ({ rx with completed := b } : Todo).completed
    · simpa using hc
    · exfalso
      have h1 : ReachesUp (updState2 s x b) x x := by
        have h0 := htouch _ hc
        simpa [hid] using h0
      have h2 : ReachesUp s x x := ((updState2_props s x b).2.2 x x).1 h1
      exact absurd (reach_rank hrk h2) (lt_irrefl _)
  · intro y hyx hxy hyne
    by_cases hym : y ∈ ids s
    · obtain ⟨ry, hly⟩ := lookupTodo_isSome hym
      have hidy : ry.id = y := (lookupTodo_eq_some hly).2
      have hnm' : (descIds (updState1 s x b) x).contains ry.id = false := by
        have hnm : ry.id ∉ descIds (updState1 s x b) x := by
          intro hmem2
          have h5 := descIds_sound (nodupIds_updState1 x b hnd) hmem2
          unfold updState1 at h5
          rw [reachesUp_completedMap, hidy] at h5
          exact hyx h5
        simpa using hnm
      have hstep1 : lookupTodo (updState1 s x b) y = some ry := by
        unfold updState1
        rw [lookupTodo_completedMap_some hly]
        have hflag : updFlag1 x b ry = ry.completed := by
          unfold updFlag1
          rw [if_neg (by simp [hidy, hyne])]
        rw [hflag]
      have e1 : completedOf (updState2 s x b) y = ry.completed := by
        unfold updState2
        rw [completedOf_completedMap_eq hstep1]
        unfold updFlag2
        rw [hnm']
        simp
      have hym2 : y ∈ ids (updState2 s x b) := by
        rw [(updState2_props s x b).1]
        exact hym
      obtain ⟨ry2, hly2⟩ := lookupTodo_isSome hym2
      have hidy2 : ry2.id = y := (lookupTodo_eq_some hly2).2
      have e2 : completedOf s' y = completedOf (updState2 s x b) y := by
        rw [hsf, completedOf_completedMap_eq hly2, completedOf_eq hly2]
        by_cases hc : f3 ry2 = ry2.completed
        · exact hc
        · exfalso
          have h1 : ReachesUp (updState2 s x b) x y := by
            have h0 := htouch _ hc
            rwa [hidy2] at h0
          exact hxy (((updState2_props s x b).2.2 x y).1 h1)
      rw [e2, e1, completedOf_eq hly]
    · have h1 : lookupTodo s y = none := lookupTodo_eq_none hym
      have h2 : lookupTodo s' y = none := by
        rw [hsf, lookupTodo_completedMap]
        have h3 : lookupTodo (updState2 s x b) y = none := by
          apply lookupTodo_eq_none
          rw [(updState2_props s x b).1]
          exact hym
        rw [h3]
        rfl
      unfold completedOf
      rw [h1, h2]
  · intro P hP
    have hp2 : ({ rx with completed := b } : Todo).parent_id = some P := hP
    have hs'' := hs'
    rw [cascadeUp_step hl2 hp2] at hs''
    obtain ⟨f5, hsf2, htouch2⟩ := cascadeUp_shape hs''
    have hPm : P ∈ ids s := hcl rx hmem P hP
    have hPm2 : P ∈ ids (updState2 s x b) := by
      rw [(updState2_props s x b).1]
      exact hPm
    obtain ⟨rP2, hlP2⟩ := lookupTodo_isSome hPm2
    have hidP2 : rP2.id = P := (lookupTodo_eq_some hlP2).2
    have e3 : completedOf s' P = newParentStatus (updState2 s x b) P := by
      rw [hsf2, completedOf_completedMap_eq (lookupTodo_completedMap_some hlP2)]
      show f5 { rP2 with completed :=
        if rP2.id == P then newParentStatus (updState2 s x b) P
        else rP2.completed } = _
      have hrec : ({ rP2 with completed :=
          if rP2.id == P then newParentStatus (updState2 s x b) P
          else rP2.completed } : Todo) =
          { rP2 with completed := newParentStatus (updState2 s x b) P } := by
        rw [if_pos (by simp [hidP2])]
      rw [hrec]
      by_cases hc : f5 { rP2 with
          completed := newParentStatus (updState2 s x b) P } =
          ({ rP2 with
            completed :=
              newParentStatus (updState2 s x b) P } : Todo).completed
      · simpa using hc
      · exfalso
        have h1 : ReachesUp
            (CompletedMap
              (fun q => if q.id == P then newParentStatus (updState2 s x b) P
                        else q.completed) (updState2 s x b)) P P := by
          have h0 := htouch2 _ hc
          simpa [hidP2] using h0
        rw [reachesUp_completedMap] at h1
        have h2 : ReachesUp s P P := ((updState2_props s x b).2.2 P P).1 h1
        exact absurd (reach_rank hrk h2) (lt_irrefl _)
    rw [e3]
    unfold newParentStatus recomputedStatus grpLen
    have etot : (updState2 s x b).countP (fun q => q.parent_id == some P) =
        s.countP (fun q => q.parent_id == some P) := by
      unfold updState2
      rw [countP_completedMap_id (updFlag2 s x b)
        (fun q => q.parent_id == some P) (fun q => rfl)]
      unfold updState1
      rw [countP_completedMap_id (updFlag1 x b)
        (fun q => q.parent_id == some P) (fun q => rfl)]
    have ecomp : (updState2 s x b).countP
        (fun q => q.parent_id == some P && q.completed) =
        s.countP (fun q => q.parent_id == some P &&
          (if q.id == x then b else q.completed)) := by
      unfold updState2
      rw [countP_completedMap]
      unfold updState1
      rw [countP_completedMap]
      apply countP_congr_bool
      intro q hq
      show ((q.parent_id == some P) &&
          updFlag2 s x b { q with completed := updFlag1 x b q }) =
        ((q.parent_id == some P) && (if q.id == x then b else q.completed))
      by_cases hpar : (q.parent_id == some P) = true
      · by_cases hqx : q.id = x
        · have h1 : updFlag1 x b q = b := by
            unfold updFlag1
            rw [if_pos (by simp [hqx])]
          rw [h1]
          have h2 : updFlag2 s x b { q with completed := b } = b := by
            unfold updFlag2
            show (if (descIds (updState1 s x b) x).contains
                ({ q with completed := b } : Todo).id then b else b) = b
            exact ite_self b
          rw [h2, if_pos (by simp [hqx])]
        · have h1 : updFlag1 x b q = q.completed := by
            unfold updFlag1
            rw [if_neg (by simp [hqx])]
          rw [h1]
          have h2 : ({ q with completed := q.completed } : Todo) = q := rfl
          rw [h2]
          have hnm' : (descIds (updState1 s x b) x).contains q.id = false := by
            have hnm : q.id ∉ descIds (updState1 s x b) x := by
              intro hmem2
              have h5 := descIds_sound (nodupIds_updState1 x b hnd) hmem2
              unfold updState1 at h5
              rw [reachesUp_completedMap] at h5
              have hlq : lookupTodo s q.id = some q := lookupTodo_self hnd hq
              have hqpar : q.parent_id = some P := by simpa using hpar
              exact sibling_not_reach hrk hl hP hlq hqpar h5
            simpa using hnm
          have h3 : updFlag2 s x b q = q.completed := by
            unfold updFlag2
            rw [hnm']
            simp
          rw [h3, if_neg (by simp [hqx])]
      · have hpar' : (q.parent_id == some P) = false := by
          simpa using hpar
        rw [hpar']
        simp
    rw [etot, ecomp]

/-! ## Claim C4: acyclicity and move -/

lemma move_todo_some {s : State} {x : Nat} {rx : Todo} (tp : Option Nat)
    (t : Int) (hfind : s.find? (fun r => r.id == x) = some rx) :
    move_todo s x tp t = some (moveSetRow x tp t
      (moveShiftIn tp t (moveShiftOut rx.parent_id rx.position s))) := by
  unfold move_todo
  rw [hfind]

lemma parentOf_none {s : State} {i : Nat} (h : lookupTodo s i = none) :
    parentOf s i = none := by
  unfold parentOf
  rw [h]

lemma parentOf_moveShiftOut (p0 : Option Nat) (q0 : Int) (s : State)
    (y : Nat) : parentOf (moveShiftOut p0 q0 s) y = parentOf s y := by
  unfold moveShiftOut
  exact parentOf_map_of_id
    (fun r => by
      by_cases hc : (r.parent_id == p0 && decide (q0 < r.position)) = true <;>
        simp [shiftOutRow, hc])
    (fun r => by
      by_cases hc : (r.parent_id == p0 && decide (q0 < r.position)) = true <;>
        simp [shiftOutRow, hc])
    s y

lemma parentOf_moveShiftIn (tp : Option Nat) (t : Int) (s : State)
    (y : Nat) : parentOf (moveShiftIn tp t s) y = parentOf s y := by
  unfold moveShiftIn
  exact parentOf_map_of_id
    (fun r => by
      by_cases hc : (r.parent_id == tp && decide (t ≤ r.position)) = true <;>
        simp [shiftInRow, hc])
    (fun r => by
      by_cases hc : (r.parent_id == tp && decide (t ≤ r.position)) = true <;>
        simp [shiftInRow, hc])
    s y

lemma lookupTodo_moveSetRow (x : Nat) (tp : Option Nat) (t : Int) (s : State)
    (y : Nat) :
    lookupTodo (moveSetRow x tp t s) y = (lookupTodo s y).map
      (fun r =>
        if r.id == x then { r with parent_id := tp, position := t } else r) := by
  unfold moveSetRow
  exact lookupTodo_map_of_id
    (fun r => by by_cases hc : (r.id == x) = true <;> simp [setRowRow, hc]) s y

lemma parentOf_moveSetRow_self {s : State} {x : Nat} {ry : Todo}
    (tp : Option Nat) (t : Int) (hly : lookupTodo s x = some ry) :
    parentOf (moveSetRow x tp t s) x = tp := by
  have hidy : ry.id = x := (lookupTodo_eq_some hly).2
  have hl2 : lookupTodo (moveSetRow x tp t s) x =
      some (if ry.id == x then { ry with parent_id := tp, position := t }
            else ry) := by
    rw [lookupTodo_moveSetRow, hly]
    rfl
  rw [parentOf_eq hl2, if_pos (by simp [hidy])]

lemma parentOf_moveSetRow_other {s : State} {x y : Nat}
    (tp : Option Nat) (t : Int) (hyx : y ≠ x) :
    parentOf (moveSetRow x tp t s) y = parentOf s y := by
  cases hly : lookupTodo s y with
  | none =>
      have hl2 : lookupTodo (moveSetRow x tp t s) y = none := by
        rw [lookupTodo_moveSetRow, hly]
        rfl
      rw [parentOf_none hl2, parentOf_none hly]
  | some ry =>
      have hidy : ry.id = y := (lookupTodo_eq_some hly).2
      have hl2 : lookupTodo (moveSetRow x tp t s) y =
          some (if ry.id == x then { ry with parent_id := tp, position := t }
                else ry) := by
        rw [lookupTodo_moveSetRow, hly]
        rfl
      rw [parentOf_eq hl2, if_neg (by simp [hidy, hyx]), parentOf_eq hly]

lemma parentOf_move {s : State} {x : Nat} {tp : Option Nat} {t : Int}
    {s' : State} (h : move_todo s x tp t = some s') :
    ∀ y, parentOf s' y = if y = x then tp else parentOf s y := by
  cases hfind : s.find? (fun r => r.id == x) with
  | none =>
      unfold move_todo at h
      rw [hfind] at h
      cases h
  | some rx =>
      rw [move_todo_some tp t hfind] at h
      cases h
      intro y
      by_cases hyx : y = x
      · subst hyx
        rw [if_pos rfl]
        have hlu : ∃ ru, lookupTodo
            (moveShiftIn tp t (moveShiftOut rx.parent_id rx.position s)) y =
            some ru := by
          apply lookupTodo_isSome
          unfold moveShiftIn moveShiftOut
          rw [ids_map_of_id (fun r => by
            by_cases hc :
                (r.parent_id == tp && decide (t ≤ r.position)) = true <;>
              simp [shiftInRow, hc])]
          rw [ids_map_of_id (fun r => by
            by_cases hc : (r.parent_id == rx.parent_id &&
                decide (rx.position < r.position)) = true <;>
              simp [shiftOutRow, hc])]
          exact lookupTodo_mem_ids hfind
        obtain ⟨ru, hlu⟩ := hlu
        exact parentOf_moveSetRow_self tp t hlu
      · rw [if_neg hyx, parentOf_moveSetRow_other tp t hyx,
          parentOf_moveShiftIn, parentOf_moveShiftOut]

lemma reroute {R R' : Nat → Nat → Prop} {x : Nat} {tp : Option Nat}
    (h : ∀ a b, R' a b ↔ (a = x ∧ tp = some b) ∨ (a ≠ x ∧ R a b)) :
    ∀ a b, Relation.TransGen R' a b →
      Relation.TransGen R a b ∨
        (Relation.ReflTransGen R a x ∧
          ∃ q, tp = some q ∧ Relation.ReflTransGen R' q b) := by
  intro a b htg
  induction htg with
  | single hstep =>
      rcases (h _ _).1 hstep with ⟨rfl, htp⟩ | ⟨_, hr⟩
      · exact Or.inr ⟨Relation.ReflTransGen.refl, _, htp,
          Relation.ReflTransGen.refl⟩
      · exact Or.inl (Relation.TransGen.single hr)
  | tail hrest hstep ih =>
      rcases (h _ _).1 hstep with ⟨heq, htp⟩ | ⟨hne, hr⟩
      · rcases ih with htg2 | ⟨hax, q, htpq, _⟩
        · refine Or.inr ⟨?_, _, htp, Relation.ReflTransGen.refl⟩
          rw [← heq]
          exact htg2.to_reflTransGen
        · exact Or.inr ⟨hax, _, htp, Relation.ReflTransGen.refl⟩
      · rcases ih with htg2 | ⟨hax, q, htpq, hq⟩
        · exact Or.inl (Relation.TransGen.tail htg2 hr)
        · refine Or.inr ⟨hax, q, htpq, Relation.ReflTransGen.tail hq ?_⟩
          exact (h _ _).2 (Or.inr ⟨hne, hr⟩)

lemma acyclic_after_move {s : State} {x : Nat} {tp : Option Nat} {t : Int}
    {s' : State} (hac : Acyclic s) (h : move_todo s x tp t = some s')
    (htp : ∀ q, tp = some q → q ≠ x ∧ ¬ ReachesUp s q x) :
    Acyclic s' := by
  intro n hcyc
  have hrel : ∀ a b,
      Step s' a b ↔ (a = x ∧ tp = some b) ∨ (a ≠ x ∧ Step s a b) := by
    intro a b
    unfold Step
    rw [parentOf_move h a]
    by_cases hax : a = x
    · simp [hax]
    · simp [hax]
  rcases reroute hrel n n hcyc with htg | ⟨hmx, q, htpq, hqb⟩
  · exact hac n htg
  · obtain ⟨hqx, hqreach⟩ := htp q htpq
    have hq2 : Relation.ReflTransGen (Step s) q x := by
      rcases Relation.reflTransGen_iff_eq_or_transGen.1 hqb with heq | htg2
      · rw [heq] at hmx
        exact hmx
      · rcases reroute hrel q n htg2 with htg3 | ⟨hq3, q2, htp2, _⟩
        · exact Relation.ReflTransGen.trans htg3.to_reflTransGen hmx
        · exact hq3
    rcases Relation.reflTransGen_iff_eq_or_transGen.1 hq2 with heq | htg4
    · exact hqx heq.symm
    · exact hqreach htg4

/-- The pre-cycle state for C4: node `A` (id 1) at root with node `B`
(id 2) as its child, built by the store's own operations. -/
def c4State : State :=
  (move_todo (save_todo (save_todo [] "A") "B") 2 (some 1) 0).getD []

/-- C4 (counterexample): the claim says the move operation itself keeps
the parent relation acyclic — a move placing a node under its own
descendant "does not take effect".  In the reachable state where node 2
is a child of node 1, `move(1, Some 2, 0)` does take effect and produces
a state in which 1 and 2 are each other's parents: a cycle. -/
theorem c4_move_creates_cycle :
    move_todo (save_todo (save_todo [] "A") "B") 2 (some 1) 0 =
      some c4State ∧
    ∃ s', move_todo c4State 1 (some 2) 0 = some s' ∧
      parentOf s' 1 = some 2 ∧ parentOf s' 2 = some 1 ∧ ¬ Acyclic s' := by
  refine ⟨rfl, _, rfl, rfl, rfl, ?_⟩
  intro hac
  exact hac 1 (Relation.TransGen.head rfl (Relation.TransGen.single rfl))

/-- C4 (amended): the storage layer does not enforce acyclicity itself;
it is preserved exactly when the caller pre-validates the move.  Whenever
the target parent is neither the moved node nor one of its descendants, a
move of an existing id from an acyclic state succeeds and yields an
acyclic state. -/
theorem c4_move_preserves_acyclicity_when_prevalidated
    {s : State} {x : Nat} {tp : Option Nat} (t : Int)
    (hac : Acyclic s) (hx : x ∈ ids s)
    (htp : ∀ q, tp = some q → q ≠ x ∧ ¬ ReachesUp s q x) :
    ∃ s', move_todo s x tp t = some s' ∧ Acyclic s' := by
  obtain ⟨rx, hl⟩ := lookupTodo_isSome hx
  exact ⟨_, move_todo_some tp t hl,
    acyclic_after_move hac (move_todo_some tp t hl) htp⟩

/-- Concrete single-node state used by the C4 witness. -/
def c4Witness : State :=
  [{ id := 1, text := "w", completed := false, parent_id := none,
     position := 0, target_count := none, current_count := 0 }]

/-- Witness for the amended C4 theorem at a concrete input. -/
theorem c4_move_preserves_acyclicity_witness :
    ∃ s', move_todo c4Witness 1 none 0 = some s' ∧ Acyclic s' := by
  have hrk : Ranked c4Witness (fun i => i) := by
    intro r hr p hp
    simp [c4Witness] at hr
    rw [hr] at hp
    cases hp
  exact c4_move_preserves_acyclicity_when_prevalidated 0
    (ranked_acyclic hrk) (by decide) (fun q hq => by cases hq)

/-! ## Claim C7: mutating a missing id is a silent no-op -/

/-- C7: for an id absent from the store, each mutating command —
`update_todo_status`, `update_todo_text`, `remove_todo_item`,
`move_todo_item`, `set_todo_count`, `decrement_todo` — leaves the stored
state unchanged.  Each command discards the database error (`let _ = ...`
in `lib.rs`), so nothing is surfaced to the UI: the commands are modelled
as total functions on the state. -/
theorem c7_missing_id_silent_noop (s : State) (x : Nat)
    (hx : ∀ r ∈ s, r.id ≠ x) :
    (∀ b, update_todo_status s x b = s) ∧
    (∀ txt, update_todo_text s x txt = s) ∧
    remove_todo_item s x = s ∧
    (∀ tp t, move_todo_item s x tp t = s) ∧
    (∀ c, set_todo_count s x c = s) ∧
    decrement_todo_cmd s x = s := by
  have hfind : s.find? (fun r => r.id == x) = none :=
    List.find?_eq_none.2 (fun r hr => by simp [hx r hr])
  have hxid : x ∉ ids s := by
    intro hmem
    rcases List.mem_map.1 hmem with ⟨r, hr, hid⟩
    exact hx r hr hid
  refine ⟨?_, ?_, ?_, ?_, ?_, ?_⟩
  · intro b
    have h2 : lookupTodo (updState2 s x b) x = none := by
      apply lookupTodo_eq_none
      rw [(updState2_props s x b).1]
      exact hxid
    have h3 : update_todo s x b = none := by
      rw [update_todo_eq2]
      exact cascadeUp_none h2
    unfold update_todo_status
    rw [h3]
    rfl
  · intro txt
    unfold update_todo_text
    calc s.map (fun r => if r.id == x then { r with text := txt } else r) =
        s.map (fun r => r) :=
          List.map_congr_left (fun r hr => if_neg (by simp [hx r hr]))
      _ = s := by simp
  · unfold remove_todo_item delete_todo
    apply List.filter_eq_self.2
    intro r hr
    simp [hx r hr]
  · intro tp t
    unfold move_todo_item move_todo
    rw [hfind]
    rfl
  · intro c
    unfold set_todo_count
    calc s.map (fun r =>
          if r.id == x then { r with target_count := c
                                     current_count := c.getD 0 } else r) =
        s.map (fun r => r) :=
          List.map_congr_left (fun r hr => if_neg (by simp [hx r hr]))
      _ = s := by simp
  · have hds : decrementStep s x = s := by
      unfold decrementStep
      calc s.map (fun r =>
            if r.id == x && decide (0 < r.current_count)
            then { r with current_count := r.current_count - 1 } else r) =
          s.map (fun r => r) :=
            List.map_congr_left (fun r hr => if_neg (by simp [hx r hr]))
        _ = s := by simp
    unfold decrement_todo_cmd decrement_todo
    rw [hds]
    show (Option.getD
      (match s.find? (fun r => r.id == x) with
       | none => none
       | some r => if r.current_count ≤ 0 then update_todo s x true
                   else some s) s) = s
    rw [hfind]
    rfl

/-- Concrete single-node state used by the C7 witness. -/
def c7State : State :=
  [{ id := 1, text := "w", completed := false, parent_id := none,
     position := 0, target_count := none, current_count := 0 }]

/-- Witness for C7 at a concrete input: id 2 is absent from `c7State`. -/
theorem c7_missing_id_silent_noop_witness :
    update_todo_status c7State 2 true = c7State ∧
    update_todo_text c7State 2 "t" = c7State ∧
    remove_todo_item c7State 2 = c7State ∧
    move_todo_item c7State 2 none 0 = c7State ∧
    set_todo_count c7State 2 none = c7State ∧
    decrement_todo_cmd c7State 2 = c7State := by
  obtain ⟨h1, h2, h3, h4, h5, h6⟩ :=
    c7_missing_id_silent_noop c7State 2 (by decide)
  exact ⟨h1 true, h2 "t", h3, h4 none 0, h5 none, h6⟩

/-! ## Counter operations: transfer lemmas -/

lemma nodupIds_set_todo_count {s : State} (x : Nat) (c : Option Int)
    (h : NodupIds s) : NodupIds (set_todo_count s x c) := by
  unfold set_todo_count
  refine (nodupIds_map_of_id ?_ s).2 h
  intro r
  by_cases hc : (r.id == x) = true <;> simp [hc]

lemma closed_set_todo_count {s : State} (x : Nat) (c : Option Int)
    (h : Closed s) : Closed (set_todo_count s x c) := by
  unfold set_todo_count
  refine (closed_map_of_id ?_ ?_ s).2 h <;>
    · intro r
      by_cases hc : (r.id == x) = true <;> simp [hc]

lemma ranked_set_todo_count {s : State} (x : Nat) (c : Option Int)
    {d : Nat → Nat} (h : Ranked s d) : Ranked (set_todo_count s x c) d := by
  unfold set_todo_count
  refine (ranked_map_of_id ?_ ?_ s d).2 h <;>
    · intro r
      by_cases hc : (r.id == x) = true <;> simp [hc]

lemma lookup_set_todo_count_self {s : State} {x : Nat} {rx : Todo}
    (c : Option Int) (hl : lookupTodo s x = some rx) :
    lookupTodo (set_todo_count s x c) x =
      some { rx with target_count := c, current_count := c.getD 0 } := by
  have hid : rx.id = x := (lookupTodo_eq_some hl).2
  unfold set_todo_count
  rw [lookupTodo_map_of_id
    (fun r => by by_cases hc : (r.id == x) = true <;> simp [hc]) s x, hl]
  show some (if rx.id == x
      then { rx with target_count := c, current_count := c.getD 0 }
      else rx) = _
  rw [if_pos (by simp [hid])]

lemma nodupIds_decrementStep {s : State} (x : Nat)
    (h : NodupIds s) : NodupIds (decrementStep s x) := by
  unfold decrementStep
  refine (nodupIds_map_of_id ?_ s).2 h
  intro r
  by_cases hc : (r.id == x && decide (0 < r.current_count)) = true <;>
    simp [hc]

lemma closed_decrementStep {s : State} (x : Nat)
    (h : Closed s) : Closed (decrementStep s x) := by
  unfold decrementStep
  refine (closed_map_of_id ?_ ?_ s).2 h <;>
    · intro r
      by_cases hc : (r.id == x && decide (0 < r.current_count)) = true <;>
        simp [hc]

lemma ranked_decrementStep {s : State} (x : Nat)
    {d : Nat → Nat} (h : Ranked s d) : Ranked (decrementStep s x) d := by
  unfold decrementStep
  refine (ranked_map_of_id ?_ ?_ s d).2 h <;>
    · intro r
      by_cases hc : (r.id == x && decide (0 < r.current_count)) = true <;>
        simp [hc]

lemma lookup_decrementStep_self {s : State} {x : Nat} {rx : Todo}
    (hl : lookupTodo s x = some rx) :
    lookupTodo (decrementStep s x) x =
      some (if 0 < rx.current_count
            then { rx with current_count := rx.current_count - 1 }
            else rx) := by
  have hid : rx.id = x := (lookupTodo_eq_some hl).2
  unfold decrementStep
  rw [lookupTodo_map_of_id
    (fun r => by
      by_cases hc : (r.id == x && decide (0 < r.current_count)) = true <;>
        simp [hc]) s x, hl]
  show some (if rx.id == x && decide (0 < rx.current_count)
      then { rx with current_count := rx.current_count - 1 } else rx) = _
  by_cases hc : 0 < rx.current_count
  · rw [if_pos (by simp [hid, hc]), if_pos hc]
  · rw [if_neg (by simp [hid, hc]), if_neg hc]

lemma decrementStep_noop {s : State} {x : Nat} {rx : Todo}
    (hnd : NodupIds s) (hl : lookupTodo s x = some rx)
    (hc : ¬ 0 < rx.current_count) : decrementStep s x = s := by
  unfold decrementStep
  calc s.map (fun r =>
        if r.id == x && decide (0 < r.current_count)
        then { r with current_count := r.current_count - 1 } else r) =
      s.map (fun r => r) := by
        refine List.map_congr_left (fun r hr => if_neg ?_)
        by_cases hrx : r.id = x
        · have : lookupTodo s x = some r := by
            rw [← hrx]
            exact lookupTodo_self hnd hr
          rw [hl] at this
          cases this
          simp [hrx, hc]
        · simp [hrx]
    _ = s := by simp

lemma decrement_todo_eq {s : State} {x : Nat} {r2 : Todo}
    (hl2 : lookupTodo (decrementStep s x) x = some r2) :
    decrement_todo s x =
      if r2.current_count ≤ 0 then update_todo (decrementStep s x) x true
      else some (decrementStep s x) := by
  unfold decrement_todo
  show (match (decrementStep s x).find? (fun r => r.id == x) with
        | none => none
        | some r => if r.current_count ≤ 0
                    then update_todo (decrementStep s x) x true
                    else some (decrementStep s x)) = _
  rw [show (decrementStep s x).find? (fun r => r.id == x) = some r2 from hl2]

/-! ## Claim C10: decrement on an ordinary checkbox node -/

/-- C10: for an existing node with `target_count = None` and the default
`current_count = 0`, a single `decrement(id)` is literally the same
operation as `set_completed(id, true)`: the floored decrement changes
nothing and the `current_count <= 0` check then invokes `update_todo`
with `true`, which marks the node completed and runs the full cascade. -/
theorem c10_decrement_checkbox_runs_full_cascade
    {s : State} {d : Nat → Nat} {x : Nat} {rx : Todo}
    (hnd : NodupIds s) (hcl : Closed s) (hrk : Ranked s d)
    (hl : lookupTodo s x = some rx)
    (htc : rx.target_count = none) (hcc : rx.current_count = 0) :
    decrement_todo s x = update_todo s x true ∧
    ∃ s', update_todo s x true = some s' ∧ completedOf s' x = true := by
  have hnoop : decrementStep s x = s :=
    decrementStep_noop hnd hl (by simp [hcc])
  have hl2 : lookupTodo (decrementStep s x) x = some rx := by
    rw [hnoop]
    exact hl
  have heq : decrement_todo s x = update_todo s x true := by
    rw [decrement_todo_eq hl2, if_pos (by simp [hcc]), hnoop]
  refine ⟨heq, ?_⟩
  obtain ⟨s', hs', _, hcomp, _, _⟩ := update_spec true hnd hcl hrk hl
  exact ⟨s', hs', hcomp⟩

/-- Concrete single-node state used by the C10 witness. -/
def c10State : State :=
  [{ id := 1, text := "task", completed := false, parent_id := none,
     position := 0, target_count := none, current_count := 0 }]

/-- Witness for C10 at a concrete input. -/
theorem c10_decrement_checkbox_witness :
    decrement_todo c10State 1 = update_todo c10State 1 true ∧
    ∃ s', update_todo c10State 1 true = some s' ∧ completedOf s' 1 = true := by
  have hrk : Ranked c10State (fun i => i) := by
    intro r hr p hp
    simp [c10State] at hr
    rw [hr] at hp
    cases hp
  have hcl : Closed c10State := by
    intro r hr p hp
    simp [c10State] at hr
    rw [hr] at hp
    cases hp
  exact c10_decrement_checkbox_runs_full_cascade
    (by unfold NodupIds; decide) hcl hrk rfl rfl rfl

/-! ## Claim C6: countdown to completion -/

/-- C6: for any existing node, `set_counter(id, 3)` followed by three
`decrement(id)` calls leaves `current_count = 0` and `completed = true`;
a fourth `decrement(id)` still leaves `current_count = 0` (the decrement
statement floors at 0 and never goes negative). -/
theorem c6_counter_three_decrements {s : State} {d : Nat → Nat} {x : Nat}
    (hnd : NodupIds s) (hcl : Closed s) (hrk : Ranked s d) (hx : x ∈ ids s) :
    ∃ sA sB sC sD,
      decrement_todo (set_todo_count s x (some 3)) x = some sA ∧
      decrement_todo sA x = some sB ∧
      decrement_todo sB x = some sC ∧
      currentOf sC x = 0 ∧ completedOf sC x = true ∧
      decrement_todo sC x = some sD ∧ currentOf sD x = 0 := by
  obtain ⟨rx, hl⟩ := lookupTodo_isSome hx
  have hnd0 := nodupIds_set_todo_count x (some 3) hnd
  have hcl0 := closed_set_todo_count x (some 3) hcl
  have hrk0 := ranked_set_todo_count x (some 3) hrk
  have hl0 : lookupTodo (set_todo_count s x (some 3)) x =
      some { rx with target_count := some 3, current_count := 3 } :=
    lookup_set_todo_count_self (some 3) hl
  have hl0' : lookupTodo (decrementStep (set_todo_count s x (some 3)) x) x =
      some { rx with target_count := some 3, current_count := 2 } := by
    rw [lookup_decrementStep_self hl0]
    norm_num
  have hA : decrement_todo (set_todo_count s x (some 3)) x =
      some (decrementStep (set_todo_count s x (some 3)) x) := by
    rw [decrement_todo_eq hl0', if_neg (by simp)]
  have hndA := nodupIds_decrementStep x hnd0
  have hclA := closed_decrementStep x hcl0
  have hrkA := ranked_decrementStep x hrk0
  have hlA' : lookupTodo
      (decrementStep (decrementStep (set_todo_count s x (some 3)) x) x) x =
      some { rx with target_count := some 3, current_count := 1 } := by
    rw [lookup_decrementStep_self hl0']
    norm_num
  have hB : decrement_todo (decrementStep (set_todo_count s x (some 3)) x) x =
      some (decrementStep
        (decrementStep (set_todo_count s x (some 3)) x) x) := by
    rw [decrement_todo_eq hlA', if_neg (by simp)]
  have hndB := nodupIds_decrementStep x hndA
  have hclB := closed_decrementStep x hclA
  have hrkB := ranked_decrementStep x hrkA
  have hlB' : lookupTodo
      (decrementStep (decrementStep
        (decrementStep (set_todo_count s x (some 3)) x) x) x) x =
      some { rx with target_count := some 3, current_count := 0 } := by
    rw [lookup_decrementStep_self hlA']
    norm_num
  have hndC' := nodupIds_decrementStep x hndB
  have hclC' := closed_decrementStep x hclB
  have hrkC' := ranked_decrementStep x hrkB
  have hC : decrement_todo (decrementStep
      (decrementStep (set_todo_count s x (some 3)) x) x) x =
      update_todo (decrementStep (decrementStep
        (decrementStep (set_todo_count s x (some 3)) x) x) x) x true := by
    rw [decrement_todo_eq hlB', if_pos (by simp)]
  obtain ⟨sC, hsC, ⟨f, hsCf⟩, hcompC, _, _⟩ :=
    update_spec true hndC' hclC' hrkC' hlB'
  have hcurC : currentOf sC x = 0 := by
    rw [hsCf, currentOf_completedMap, currentOf_eq hlB']
  have hlCe : ∃ rC, lookupTodo sC x = some rC ∧ rC.current_count = 0 := by
    rw [hsCf]
    exact ⟨_, lookupTodo_completedMap_some hlB', rfl⟩
  obtain ⟨rC, hlC, hcurrC⟩ := hlCe
  have hndC : NodupIds sC := by
    rw [hsCf]
    exact (nodupIds_completedMap _ _).2 hndC'
  have hclC : Closed sC := by
    rw [hsCf]
    exact (closed_completedMap _ _).2 hclC'
  have hrkC : Ranked sC d := by
    rw [hsCf]
    exact (ranked_completedMap _ _ _).2 hrkC'
  have hnoopC : decrementStep sC x = sC :=
    decrementStep_noop hndC hlC (by simp [hcurrC])
  have hlC2 : lookupTodo (decrementStep sC x) x = some rC := by
    rw [hnoopC]
    exact hlC
  have hD : decrement_todo sC x = update_todo sC x true := by
    rw [decrement_todo_eq hlC2, if_pos (by simp [hcurrC]), hnoopC]
  obtain ⟨sD, hsD, ⟨g, hsDf⟩, _, _, _⟩ := update_spec true hndC hclC hrkC hlC
  have hcurD : currentOf sD x = 0 := by
    rw [hsDf, currentOf_completedMap]
    exact hcurC
  exact ⟨_, _, sC, sD, hA, hB, by rw [hC]; exact hsC, hcurC, hcompC,
    by rw [hD]; exact hsD, hcurD⟩

/-- Concrete single-node state used by the C6 witness. -/
def c6State : State :=
  [{ id := 1, text := "count", completed := false, parent_id := none,
     position := 0, target_count := none, current_count := 0 }]

/-- Witness for C6 at a concrete input. -/
theorem c6_counter_three_decrements_witness :
    ∃ sA sB sC sD,
      decrement_todo (set_todo_count c6State 1 (some 3)) 1 = some sA ∧
      decrement_todo sA 1 = some sB ∧
      decrement_todo sB 1 = some sC ∧
      currentOf sC 1 = 0 ∧ completedOf sC 1 = true ∧
      decrement_todo sC 1 = some sD ∧ currentOf sD 1 = 0 := by
  have hrk : Ranked c6State (fun i => i) := by
    intro r hr p hp
    simp [c6State] at hr
    rw [hr] at hp
    cases hp
  have hcl : Closed c6State := by
    intro r hr p hp
    simp [c6State] at hr
    rw [hr] at hp
    cases hp
  exact c6_counter_three_decrements (by unfold NodupIds; decide) hcl hrk
    (by decide)

/-! ## Claim C2: the completion cascade on a parent and its children -/

/-- Mark a list of nodes completed one at a time through
`update_todo (-, true)` (each call is one `update_todo_status` command). -/
def markSeq (s : State) : List Nat → Option State
  | [] => some s
  | c :: rest => (update_todo s c true).bind (fun s' => markSeq s' rest)

lemma markSeq_append (s : State) (l1 l2 : List Nat) :
    markSeq s (l1 ++ l2) = (markSeq s l1).bind (fun s' => markSeq s' l2) := by
  induction l1 generalizing s with
  | nil => rfl
  | cons c rest ih =>
      show (update_todo s c true).bind (fun s' => markSeq s' (rest ++ l2)) =
        ((update_todo s c true).bind (fun s' => markSeq s' rest)).bind
          (fun s' => markSeq s' l2)
      cases update_todo s c true with
      | none => rfl
      | some s' => exact ih s'

lemma all_congr_bool {l : List Nat} {p q : Nat → Bool}
    (h : ∀ a ∈ l, p a = q a) : l.all p = l.all q := by
  induction l with
  | nil => rfl
  | cons a t ih =>
      simp only [List.all_cons, h a (by simp)]
      rw [ih (fun b hb => h b (by simp [hb]))]

lemma countP_children (s : State) (P : Nat) (g : Nat → Bool) :
    s.countP (fun q => (q.parent_id == some P) && g q.id) =
      (childIdsOf s P).countP g := by
  unfold childIdsOf
  rw [List.countP_map, List.countP_filter]
  exact countP_congr_bool (fun a _ => Bool.and_comm _ _)

lemma grpLen_childIds (s : State) (P : Nat) :
    grpLen s (some P) = (childIdsOf s P).length := by
  unfold grpLen childIdsOf
  rw [List.length_map, List.countP_eq_length_filter]

lemma childIdsOf_nodup {s : State} (hnd : NodupIds s) (P : Nat) :
    (childIdsOf s P).Nodup := by
  unfold childIdsOf
  exact List.Nodup.sublist ((List.filter_sublist s).map (fun r => r.id)) hnd

lemma childIdsOf_row {s : State} {P c : Nat} (h : c ∈ childIdsOf s P) :
    ∃ rc ∈ s, rc.id = c ∧ rc.parent_id = some P := by
  unfold childIdsOf at h
  rcases List.mem_map.1 h with ⟨rc, hrc, rfl⟩
  have h2 := List.mem_filter.1 hrc
  exact ⟨rc, h2.1, rfl, by simpa using h2.2⟩

lemma c2_step {s₀ : State} {f : Todo → Bool} {d : Nat → Nat} {P x : Nat}
    {m : Nat → Bool}
    (hnd : NodupIds s₀) (hcl : Closed s₀) (hrk : Ranked s₀ d)
    (hx : x ∈ childIdsOf s₀ P)
    (hval : ∀ c ∈ childIdsOf s₀ P,
      completedOf (CompletedMap f s₀) c = m c) :
    ∃ s', update_todo (CompletedMap f s₀) x true = some s' ∧
      (∃ g, s' = CompletedMap g s₀) ∧
      (∀ c ∈ childIdsOf s₀ P, completedOf s' c = ((c == x) || m c)) ∧
      completedOf s' P =
        (childIdsOf s₀ P).all (fun c => (c == x) || m c) := by
  obtain ⟨rx, hrxmem, hrxid, hrxpar⟩ := childIdsOf_row hx
  have hl0 : lookupTodo s₀ x = some rx := by
    rw [← hrxid]
    exact lookupTodo_self hnd hrxmem
  have hndk : NodupIds (CompletedMap f s₀) := (nodupIds_completedMap _ _).2 hnd
  have hclk : Closed (CompletedMap f s₀) := (closed_completedMap _ _).2 hcl
  have hrkk : Ranked (CompletedMap f s₀) d := (ranked_completedMap _ _ _).2 hrk
  have hlk : lookupTodo (CompletedMap f s₀) x =
      some { rx with completed := f rx } := lookupTodo_completedMap_some hl0
  obtain ⟨s', hs', ⟨g, hsg⟩, hcx, hframe, hpar⟩ :=
    update_spec true hndk hclk hrkk hlk
  have hparP : completedOf s' P =
      recomputedStatus (CompletedMap f s₀) x true P :=
    hpar P hrxpar
  refine ⟨s', hs', ?_, ?_, ?_⟩
  · rw [hsg, completedMap_comp]
    exact ⟨_, rfl⟩
  · intro c hc
    by_cases hcx2 : c = x
    · rw [hcx2]
      simpa using hcx
    · obtain ⟨rc, hrcmem, hrcid, hrcpar⟩ := childIdsOf_row hc
      have hlc : lookupTodo s₀ c = some rc := by
        rw [← hrcid]
        exact lookupTodo_self hnd hrcmem
      have hncx : ¬ ReachesUp (CompletedMap f s₀) c x := by
        rw [reachesUp_completedMap]
        exact sibling_not_reach hrk hl0 hrxpar hlc hrcpar
      have hnxc : ¬ ReachesUp (CompletedMap f s₀) x c := by
        rw [reachesUp_completedMap]
        exact sibling_not_reach hrk hlc hrcpar hl0 hrxpar
      rw [hframe c hncx hnxc hcx2, hval c hc]
      simp [hcx2]
  · rw [hparP]
    unfold recomputedStatus
    have hlen : grpLen (CompletedMap f s₀) (some P) =
        (childIdsOf s₀ P).length := by
      unfold grpLen
      rw [countP_completedMap_id f (fun q => q.parent_id == some P)
        (fun q => rfl), ← childIdsOf_completedMap f]
      rw [childIdsOf_completedMap f]
      exact grpLen_childIds s₀ P
    have hcount : (CompletedMap f s₀).countP
        (fun q => q.parent_id == some P &&
          (if q.id == x then true else q.completed)) =
        (childIdsOf s₀ P).countP (fun c => (c == x) || m c) := by
      have h1 : (CompletedMap f s₀).countP
          (fun q => q.parent_id == some P &&
            (if q.id == x then true else q.completed)) =
          (CompletedMap f s₀).countP
          (fun q => q.parent_id == some P &&
            ((q.id == x) || m q.id)) := by
        apply countP_congr_bool
        intro q hq
        by_cases hpq : (q.parent_id == some P) = true
        · have hqc : q.id ∈ childIdsOf (CompletedMap f s₀) P := by
            unfold childIdsOf
            exact List.mem_map.2 ⟨q, List.mem_filter.2 ⟨hq, hpq⟩, rfl⟩
          rw [childIdsOf_completedMap] at hqc
          have hqcomp : q.completed = m q.id := by
            rw [← hval q.id hqc]
            rw [completedOf_eq (lookupTodo_self hndk hq)]
          by_cases hqx : (q.id == x) = true
          · simp [hqx, hpq]
          · have hqx' : (q.id == x) = false := by
              simpa using hqx
            rw [hqx', hqcomp]
            simp
        · have hpq' : (q.parent_id == some P) = false := by simpa using hpq
          rw [hpq']
          simp
      rw [h1, countP_children (CompletedMap f s₀) P
        (fun c => (c == x) || m c), childIdsOf_completedMap]
    rw [hlen, hcount]
    have hpos : 0 < (childIdsOf s₀ P).length :=
      List.length_pos.2 (by intro he; rw [he] at hx; cases hx)
    have hiff : ((childIdsOf s₀ P).length =
        (childIdsOf s₀ P).countP (fun c => (c == x) || m c)) ↔
        ((childIdsOf s₀ P).all (fun c => (c == x) || m c) = true) := by
      rw [List.all_eq_true]
      constructor
      · intro he
        exact List.countP_eq_length.1 he.symm
      · intro ha
        exact (List.countP_eq_length.2 ha).symm
    rw [decide_eq_true hpos, Bool.true_and, decide_eq_decide.2 hiff]
    exact Bool.decide_eq_true

lemma c2_unmark {s₀ : State} {f : Todo → Bool} {d : Nat → Nat} {P j : Nat}
    (hnd : NodupIds s₀) (hcl : Closed s₀) (hrk : Ranked s₀ d)
    (hj : j ∈ childIdsOf s₀ P) :
    ∃ s', update_todo (CompletedMap f s₀) j false = some s' ∧
      completedOf s' P = false := by
  obtain ⟨rj, hrjmem, hrjid, hrjpar⟩ := childIdsOf_row hj
  have hl0 : lookupTodo s₀ j = some rj := by
    rw [← hrjid]
    exact lookupTodo_self hnd hrjmem
  have hndk : NodupIds (CompletedMap f s₀) := (nodupIds_completedMap _ _).2 hnd
  have hclk : Closed (CompletedMap f s₀) := (closed_completedMap _ _).2 hcl
  have hrkk : Ranked (CompletedMap f s₀) d := (ranked_completedMap _ _ _).2 hrk
  have hlk : lookupTodo (CompletedMap f s₀) j =
      some { rj with completed := f rj } := lookupTodo_completedMap_some hl0
  obtain ⟨s', hs', _, _, _, hpar⟩ := update_spec false hndk hclk hrkk hlk
  refine ⟨s', hs', ?_⟩
  rw [hpar P hrjpar]
  unfold recomputedStatus grpLen
  have hlt : (CompletedMap f s₀).countP
      (fun q => q.parent_id == some P &&
        (if q.id == j then false else q.completed)) <
      (CompletedMap f s₀).countP (fun q => q.parent_id == some P) := by
    refine countP_lt_of_mem
      (List.mem_map_of_mem (fun r => { r with completed := f r }) hrjmem)
      ?_ ?_ ?_
    · show ((rj.parent_id == some P) &&
        (if rj.id == j then false else f rj)) = false
      rw [if_pos (by simp [hrjid])]
      simp
    · show (rj.parent_id == some P) = true
      simp [hrjpar]
    · intro a _ ha
      rw [Bool.and_eq_true] at ha
      exact ha.1
  have hne : ¬ ((CompletedMap f s₀).countP
      (fun q => q.parent_id == some P) =
      (CompletedMap f s₀).countP
      (fun q => q.parent_id == some P &&
        (if q.id == j then false else q.completed))) := by omega
  rw [decide_eq_false hne]
  simp

lemma get_not_mem_take {l : List Nat} (h : l.Nodup) {k : Nat}
    (hk : k < l.length) : l.get ⟨k, hk⟩ ∉ l.take k := by
  intro hmem
  have h2 : l.get ⟨k, hk⟩ ∈ l.drop k := by
    rw [List.drop_eq_getElem_cons hk]
    exact List.mem_cons.2 (Or.inl rfl)
  have h4 : (l.take k ++ l.drop k).Nodup := by
    rw [List.take_append_drop]
    exact h
  exact (List.nodup_append.1 h4).2.2 hmem h2

lemma c2_prefix {s₀ : State} {d : Nat → Nat} {P : Nat} {cs : List Nat}
    (hnd : NodupIds s₀) (hcl : Closed s₀) (hrk : Ranked s₀ d)
    (hcs : cs.Perm (childIdsOf s₀ P))
    (hinit : ∀ c ∈ cs, completedOf s₀ c = false) :
    ∀ k, k ≤ cs.length →
      ∃ sk, markSeq s₀ (cs.take k) = some sk ∧
        (∃ f, sk = CompletedMap f s₀) ∧
        (∀ c ∈ childIdsOf s₀ P,
          completedOf sk c = decide (c ∈ cs.take k)) ∧
        (1 ≤ k → completedOf sk P =
          (childIdsOf s₀ P).all (fun c => decide (c ∈ cs.take k))) := by
  intro k
  induction k with
  | zero =>
      intro _
      refine ⟨s₀, rfl, ⟨fun r => r.completed, (completedMap_self s₀).symm⟩,
        ?_, by omega⟩
      intro c hc
      rw [hinit c (hcs.mem_iff.2 hc)]
      simp
  | succ k ih =>
      intro hk1
      have hk : k < cs.length := by omega
      obtain ⟨sk, hmark, ⟨f, rfl⟩, hvals, _⟩ := ih (by omega)
      have hxmem : cs.get ⟨k, hk⟩ ∈ childIdsOf s₀ P :=
        hcs.mem_iff.1 (List.get_mem cs k hk)
      obtain ⟨s', hupd, hshape, hchildren, hPval⟩ :=
        c2_step hnd hcl hrk hxmem hvals
      have htake : cs.take (k + 1) = cs.take k ++ [cs.get ⟨k, hk⟩] := by
        rw [List.take_succ]
        congr 1
        rw [List.getElem?_eq_getElem hk]
        rfl
      have hmem_iff : ∀ c, (c ∈ cs.take (k + 1)) ↔
          (c ∈ cs.take k ∨ c = cs.get ⟨k, hk⟩) := by
        intro c
        rw [htake, List.mem_append, List.mem_singleton]
      refine ⟨s', ?_, hshape, ?_, ?_⟩
      · rw [htake, markSeq_append, hmark]
        show (update_todo (CompletedMap f s₀) (cs.get ⟨k, hk⟩) true).bind
          (fun s2 => markSeq s2 []) = some s'
        rw [hupd]
        rfl
      · intro c hc
        rw [hchildren c hc]
        by_cases hcx : c = cs.get ⟨k, hk⟩
        · simp [hcx, hmem_iff]
        · have h1 : (c == cs.get ⟨k, hk⟩) = false := by simpa using hcx
          rw [h1]
          simp only [Bool.false_or]
          rw [decide_eq_decide, hmem_iff c]
          constructor
          · exact Or.inl
          · rintro (h2 | h2)
            · exact h2
            · exact absurd h2 hcx
      · intro _
        rw [hPval]
        apply all_congr_bool
        intro c _
        by_cases hcx : c = cs.get ⟨k, hk⟩
        · simp [hcx, hmem_iff]
        · have h1 : (c == cs.get ⟨k, hk⟩) = false := by simpa using hcx
          rw [h1]
          simp only [Bool.false_or]
          rw [decide_eq_decide, hmem_iff c]
          constructor
          · exact Or.inl
          · rintro (h2 | h2)
            · exact h2
            · exact absurd h2 hcx

/-- C2: for a parent `P` whose direct children `cs` (at least one) are all
initially incomplete (and `P` itself incomplete, as the derived-completion
invariant requires), marking the children complete one at a time makes `P`
complete exactly when the last child is marked and not before; afterwards
unmarking any one child makes `P` incomplete again — the up-cascade
recomputes each ancestor's flag from the children's current state instead
of propagating the written boolean. -/
theorem c2_cascade_completion {s₀ : State} {d : Nat → Nat} {P : Nat}
    {cs : List Nat}
    (hnd : NodupIds s₀) (hcl : Closed s₀) (hrk : Ranked s₀ d)
    (hcs : cs.Perm (childIdsOf s₀ P)) (hne : cs ≠ [])
    (hinit : ∀ c ∈ cs, completedOf s₀ c = false)
    (hP0 : completedOf s₀ P = false) :
    (∀ k, k < cs.length →
      ∃ sk, markSeq s₀ (cs.take k) = some sk ∧ completedOf sk P = false) ∧
    (∃ sn, markSeq s₀ cs = some sn ∧ completedOf sn P = true ∧
      ∀ j ∈ cs, ∃ s', update_todo sn j false = some s' ∧
        completedOf s' P = false) := by
  have hcsnd : cs.Nodup := hcs.nodup_iff.2 (childIdsOf_nodup hnd P)
  constructor
  · intro k hk
    obtain ⟨sk, hmark, _, _, hPval⟩ :=
      c2_prefix hnd hcl hrk hcs hinit k (by omega)
    refine ⟨sk, hmark, ?_⟩
    rcases Nat.eq_zero_or_pos k with rfl | hkpos
    · have : some s₀ = some sk := hmark
      cases this
      exact hP0
    · rw [hPval hkpos]
      have hget : cs.get ⟨k, hk⟩ ∈ childIdsOf s₀ P :=
        hcs.mem_iff.1 (List.get_mem cs k hk)
      have hnotin : cs.get ⟨k, hk⟩ ∉ cs.take k := get_not_mem_take hcsnd hk
      rw [Bool.eq_false_iff]
      intro hall
      have := List.all_eq_true.1 hall _ hget
      rw [decide_eq_true_eq] at this
      exact hnotin this
  · obtain ⟨sn, hmark, ⟨f, rfl⟩, _, hPval⟩ :=
      c2_prefix hnd hcl hrk hcs hinit cs.length (le_refl _)
    rw [List.take_length] at hmark hPval
    have hnpos : 1 ≤ cs.length :=
      List.length_pos.2 hne
    refine ⟨_, hmark, ?_, ?_⟩
    · rw [hPval hnpos]
      rw [List.all_eq_true]
      intro c hc
      rw [decide_eq_true_eq]
      exact hcs.mem_iff.2 hc
    · intro j hj
      exact c2_unmark hnd hcl hrk (hcs.mem_iff.1 hj)

/-- Concrete state for the C2 witness: parent 1 with children 2 and 3. -/
def c2StateW : State :=
  [{ id := 1, text := "P", completed := false, parent_id := none,
     position := 0, target_count := none, current_count := 0 },
   { id := 2, text := "c1", completed := false, parent_id := some 1,
     position := 0, target_count := none, current_count := 0 },
   { id := 3, text := "c2", completed := false, parent_id := some 1,
     position := 1, target_count := none, current_count := 0 }]

/-- Witness for C2 at a concrete input: children `[2, 3]` of parent 1. -/
theorem c2_cascade_completion_witness :
    (∀ k, k < ([2, 3] : List Nat).length →
      ∃ sk, markSeq c2StateW (([2, 3] : List Nat).take k) = some sk ∧
        completedOf sk 1 = false) ∧
    (∃ sn, markSeq c2StateW [2, 3] = some sn ∧ completedOf sn 1 = true ∧
      ∀ j ∈ ([2, 3] : List Nat), ∃ s', update_todo sn j false = some s' ∧
        completedOf s' 1 = false) := by
  have hcl : Closed c2StateW := by
    intro r hr p hp
    simp [c2StateW] at hr
    rcases hr with rfl | rfl | rfl <;> simp_all [ids, c2StateW]
  have hrk : Ranked c2StateW (fun i => i) := by
    intro r hr p hp
    simp [c2StateW] at hr
    rcases hr with rfl | rfl | rfl <;> simp_all <;> omega
  have he : childIdsOf c2StateW 1 = [2, 3] := by decide
  have hperm : ([2, 3] : List Nat).Perm (childIdsOf c2StateW 1) := by
    rw [he]
  exact c2_cascade_completion (by unfold NodupIds; decide) hcl hrk hperm
    (by decide) (by decide) (by decide)

/-! ## Claim C8: create and read back -/

lemma foldr_max_init (a : Int) (l : List Int) : a ≤ l.foldr max a := by
  induction l with
  | nil => exact le_refl a
  | cons x t ih => exact le_trans ih (le_max_right x _)

lemma foldr_max_mem {l : List Int} (a : Int) {x : Int} (hx : x ∈ l) :
    x ≤ l.foldr max a := by
  induction l with
  | nil => cases hx
  | cons y t ih =>
      rcases List.mem_cons.1 hx with rfl | h
      · exact le_max_left _ _
      · exact le_trans (ih h) (le_max_right _ _)

lemma foldr_max_le {l : List Int} {a : Int} (h : ∀ x ∈ l, x ≤ a) :
    l.foldr max a = a := by
  induction l with
  | nil => rfl
  | cons x tl ih =>
      show max x (tl.foldr max a) = a
      rw [ih (fun y hy => h y (List.mem_cons_of_mem x hy))]
      exact max_eq_right (h x (List.mem_cons_self x tl))

lemma rootPositions_append (s : State) (r : Todo)
    (hr : r.parent_id = none) :
    rootPositions (s ++ [r]) = rootPositions s ++ [r.position] := by
  unfold rootPositions
  rw [List.filter_append, List.map_append]
  have h1 : List.filter (fun q : Todo => q.parent_id == none) [r] = [r] := by
    simp [List.filter, hr]
  rw [h1]
  rfl

/-- Appending a root row whose position is at least the group's current
`COALESCE(MAX(position), -1)` makes that position the new value. -/
lemma rootMaxPos_append_ge (s : State) (r : Todo)
    (hr : r.parent_id = none) (hge : rootMaxPos s ≤ r.position) :
    rootMaxPos (s ++ [r]) = r.position := by
  unfold rootMaxPos
  rw [rootPositions_append s r hr]
  cases hps : rootPositions s with
  | nil => rfl
  | cons z zs =>
      show (zs ++ [r.position]).foldr max z = r.position
      rw [List.foldr_append]
      show zs.foldr max (max r.position z) = r.position
      have hm : zs.foldr max z ≤ r.position := by
        have he : rootMaxPos s = zs.foldr max z := by
          unfold rootMaxPos
          rw [hps]
        omega
      have hz : z ≤ r.position := le_trans (foldr_max_init z zs) hm
      rw [max_eq_left hz]
      exact foldr_max_le (fun x hx => le_trans (foldr_max_mem z hx) hm)

lemma rootMaxPos_save (s : State) (t : String) :
    rootMaxPos (save_todo s t) = rootMaxPos s + 1 :=
  rootMaxPos_append_ge s
    { id := nextId s, text := t, completed := false, parent_id := none,
      position := rootMaxPos s + 1, target_count := none,
      current_count := 0 }
    rfl (by show rootMaxPos s ≤ rootMaxPos s + 1; omega)

lemma mem_insertByPos (r q : Todo) (l : State) :
    q ∈ insertByPos r l ↔ q = r ∨ q ∈ l := by
  induction l with
  | nil => simp [insertByPos]
  | cons h t ih =>
      unfold insertByPos
      by_cases hc : h.position ≤ r.position
      · rw [if_pos hc]
        simp only [List.mem_cons, ih]
        tauto
      · rw [if_neg hc]
        simp only [List.mem_cons]

lemma mem_sortByPos (q : Todo) (l : State) : q ∈ sortByPos l ↔ q ∈ l := by
  induction l with
  | nil => simp [sortByPos]
  | cons h t ih =>
      show q ∈ insertByPos h (sortByPos t) ↔ _
      rw [mem_insertByPos, ih, List.mem_cons]

/-- C8: after `create(text)`, `read_all()` contains a row with that exact
text, `completed = false`, `parent_id = None`, and position one past the
previous maximum root-group position (`COALESCE(MAX(position), -1) + 1`,
so 0 when the root group was empty); the new row becomes the new maximum,
so consecutive creates assign strictly increasing, gap-free positions. -/
theorem c8_create_roundtrip (s : State) (t : String) :
    ∃ r ∈ get_todos (save_todo s t),
      r.text = t ∧ r.completed = false ∧ r.parent_id = none ∧
      r.position = rootMaxPos s + 1 ∧
      (s.filter (fun q => q.parent_id == none) = [] → r.position = 0) ∧
      rootMaxPos (save_todo s t) = rootMaxPos s + 1 := by
  refine ⟨{ id := nextId s, text := t, completed := false, parent_id := none,
            position := rootMaxPos s + 1, target_count := none,
            current_count := 0 }, ?_, rfl, rfl, rfl, rfl, ?_, ?_⟩
  · unfold get_todos
    rw [mem_sortByPos]
    unfold save_todo
    exact List.mem_append.2 (Or.inr (by simp))
  · intro he
    show rootMaxPos s + 1 = 0
    have h1 : rootMaxPos s = -1 := by
      unfold rootMaxPos rootPositions
      rw [he]
      rfl
    omega
  · exact rootMaxPos_save s t

/-- Witness for C8 at the concrete input of the spec's round-trip test. -/
theorem c8_create_roundtrip_witness :
    ∃ r ∈ get_todos (save_todo [] "buy milk"),
      r.text = "buy milk" ∧ r.completed = false ∧ r.parent_id = none ∧
      r.position = rootMaxPos [] + 1 ∧
      (List.filter (fun q : Todo => q.parent_id == none) ([] : State) = [] →
        r.position = 0) ∧
      rootMaxPos (save_todo [] "buy milk") = rootMaxPos [] + 1 :=
  c8_create_roundtrip [] "buy milk"

/-! ## Claim C3: moves keep sibling positions dense -/

/-- Net effect of the two gap statements of `move_todo` on the position of
an untouched row, as a function of whether the row's group is the source
group (`g0`) and/or the target group (`g1`). -/
def moveShiftFn (g0 g1 : Bool) (q0 t z : Int) : Int :=
  if g1 && decide (t ≤ if g0 && decide (q0 < z) then z - 1 else z)
  then (if g0 && decide (q0 < z) then z - 1 else z) + 1
  else if g0 && decide (q0 < z) then z - 1 else z

lemma shiftOutRow_id (p0 : Option Nat) (q0 : Int) (r : Todo) :
    (shiftOutRow p0 q0 r).id = r.id := by
  unfold shiftOutRow
  split <;> rfl

lemma shiftOutRow_parent (p0 : Option Nat) (q0 : Int) (r : Todo) :
    (shiftOutRow p0 q0 r).parent_id = r.parent_id := by
  unfold shiftOutRow
  split <;> rfl

lemma shiftOutRow_pos (p0 : Option Nat) (q0 : Int) (r : Todo) :
    (shiftOutRow p0 q0 r).position =
      if r.parent_id == p0 && decide (q0 < r.position)
      then r.position - 1 else r.position := by
  unfold shiftOutRow
  by_cases h : (r.parent_id == p0 && decide (q0 < r.position)) = true
  · rw [if_pos h, if_pos h]
  · rw [if_neg h, if_neg h]

lemma shiftInRow_parent (tp : Option Nat) (t : Int) (r : Todo) :
    (shiftInRow tp t r).parent_id = r.parent_id := by
  unfold shiftInRow
  split <;> rfl

lemma shiftInRow_pos (tp : Option Nat) (t : Int) (r : Todo) :
    (shiftInRow tp t r).position =
      if r.parent_id == tp && decide (t ≤ r.position)
      then r.position + 1 else r.position := by
  unfold shiftInRow
  by_cases h : (r.parent_id == tp && decide (t ≤ r.position)) = true
  · rw [if_pos h, if_pos h]
  · rw [if_neg h, if_neg h]

lemma moveRow_id (p0 : Option Nat) (q0 : Int) (tp : Option Nat) (t : Int)
    (r : Todo) : (shiftInRow tp t (shiftOutRow p0 q0 r)).id = r.id := by
  unfold shiftInRow
  split
  · exact shiftOutRow_id p0 q0 r
  · exact shiftOutRow_id p0 q0 r

lemma moveRow_parent (p0 : Option Nat) (q0 : Int) (tp : Option Nat)
    (t : Int) (r : Todo) :
    (shiftInRow tp t (shiftOutRow p0 q0 r)).parent_id = r.parent_id := by
  rw [shiftInRow_parent, shiftOutRow_parent]

lemma moveRow_pos (p0 : Option Nat) (q0 : Int) (tp : Option Nat) (t : Int)
    (r : Todo) :
    (shiftInRow tp t (shiftOutRow p0 q0 r)).position =
      moveShiftFn (r.parent_id == p0) (r.parent_id == tp) q0 t
        r.position := by
  unfold moveShiftFn
  rw [shiftInRow_pos, shiftOutRow_parent, shiftOutRow_pos]

lemma setRowRow_other {x : Nat} (tp : Option Nat) (t : Int) {r : Todo}
    (hne : r.id ≠ x) : setRowRow x tp t r = r := by
  unfold setRowRow
  rw [if_neg (by simp [hne])]

lemma setRow_moveRow_parent (x : Nat) (p0 : Option Nat) (q0 : Int)
    (tp : Option Nat) (t : Int) {rx : Todo} (hx : rx.id = x) :
    (setRowRow x tp t (shiftInRow tp t (shiftOutRow p0 q0 rx))).parent_id =
      tp := by
  unfold setRowRow
  rw [if_pos (by rw [moveRow_id]; simp [hx])]

lemma setRow_moveRow_pos (x : Nat) (p0 : Option Nat) (q0 : Int)
    (tp : Option Nat) (t : Int) {rx : Todo} (hx : rx.id = x) :
    (setRowRow x tp t (shiftInRow tp t (shiftOutRow p0 q0 rx))).position =
      t := by
  unfold setRowRow
  rw [if_pos (by rw [moveRow_id]; simp [hx])]

lemma find?_split {s : State} {x : Nat} {rx : Todo} (hnd : NodupIds s)
    (hrx : s.find? (fun r => r.id == x) = some rx) :
    ∃ l₁ l₂, s = l₁ ++ rx :: l₂ ∧ (∀ r ∈ l₁, r.id ≠ x) ∧
      ∀ r ∈ l₂, r.id ≠ x := by
  have hmem : rx ∈ s := List.mem_of_find?_eq_some hrx
  have hid : rx.id = x := by simpa using List.find?_some hrx
  obtain ⟨l₁, l₂, rfl⟩ := List.append_of_mem hmem
  unfold NodupIds ids at hnd
  rw [List.map_append, List.map_cons, List.nodup_append] at hnd
  obtain ⟨h1, h2, hdisj⟩ := hnd
  rw [List.nodup_cons] at h2
  refine ⟨l₁, l₂, rfl, ?_, ?_⟩
  · intro r hr hre
    exact hdisj (List.mem_map.2 ⟨r, hr, by rw [hre, hid]⟩)
      (List.mem_cons_self _ _)
  · intro r hr hre
    exact h2.1 (List.mem_map.2 ⟨r, hr, by rw [hre, hid]⟩)

lemma countP_chain (f : Todo → Todo) (pq pg : Todo → Bool) (l : List Todo)
    (h : ∀ r ∈ l, pq (f r) = pg r) :
    (l.map f).countP pq = l.countP pg := by
  rw [List.countP_map]
  exact countP_congr_bool h

/-- The sibling-group census of the state written by a successful
`move_todo`, split into the untouched rows and the moved row. -/
lemma grpCount_move_split (l₁ l₂ : List Todo) (rx : Todo) (x : Nat)
    (tp : Option Nat) (t : Int) (hx : rx.id = x)
    (h₁ : ∀ r ∈ l₁, r.id ≠ x) (h₂ : ∀ r ∈ l₂, r.id ≠ x)
    (p : Option Nat) (i : Int) :
    grpCount (moveSetRow x tp t (moveShiftIn tp t
      (moveShiftOut rx.parent_id rx.position (l₁ ++ rx :: l₂)))) p i =
    (l₁ ++ l₂).countP (fun r => r.parent_id == p &&
      (moveShiftFn (r.parent_id == rx.parent_id) (r.parent_id == tp)
        rx.position t r.position == i)) +
    (if tp = p ∧ t = i then 1 else 0) := by
  have hpt : ∀ r : Todo, r.id ≠ x →
      ((setRowRow x tp t (shiftInRow tp t
          (shiftOutRow rx.parent_id rx.position r))).parent_id == p &&
        ((setRowRow x tp t (shiftInRow tp t
          (shiftOutRow rx.parent_id rx.position r))).position == i)) =
      (r.parent_id == p &&
        (moveShiftFn (r.parent_id == rx.parent_id) (r.parent_id == tp)
          rx.position t r.position == i)) := by
    intro r hne
    rw [setRowRow_other tp t (by rw [moveRow_id]; exact hne),
      moveRow_parent, moveRow_pos]
  have key : ∀ l : List Todo, (∀ r ∈ l, r.id ≠ x) →
      List.countP (fun r => r.parent_id == p && r.position == i)
        (((l.map (shiftOutRow rx.parent_id rx.position)).map
          (shiftInRow tp t)).map (setRowRow x tp t)) =
      List.countP (fun r => r.parent_id == p &&
        (moveShiftFn (r.parent_id == rx.parent_id) (r.parent_id == tp)
          rx.position t r.position == i)) l := by
    intro l hl
    rw [List.countP_map, List.countP_map, List.countP_map]
    exact countP_congr_bool (fun r hr => hpt r (hl r hr))
  unfold grpCount moveSetRow moveShiftIn moveShiftOut
  simp only [List.map_append, List.map_cons, List.countP_append,
    List.countP_cons]
  rw [key l₁ h₁, key l₂ h₂]
  rw [setRow_moveRow_parent x rx.parent_id rx.position tp t hx,
    setRow_moveRow_pos x rx.parent_id rx.position tp t hx]
  by_cases h1 : tp = p <;> by_cases h2 : t = i <;>
    simp [h1, h2] <;> omega

/-- The sibling-group sizes of the state written by a successful
`move_todo`, split into the untouched rows and the moved row. -/
lemma grpLen_move_split (l₁ l₂ : List Todo) (rx : Todo) (x : Nat)
    (tp : Option Nat) (t : Int) (hx : rx.id = x)
    (h₁ : ∀ r ∈ l₁, r.id ≠ x) (h₂ : ∀ r ∈ l₂, r.id ≠ x)
    (p : Option Nat) :
    grpLen (moveSetRow x tp t (moveShiftIn tp t
      (moveShiftOut rx.parent_id rx.position (l₁ ++ rx :: l₂)))) p =
    (l₁ ++ l₂).countP (fun r => r.parent_id == p) +
    (if tp = p then 1 else 0) := by
  have hpt : ∀ r : Todo, r.id ≠ x →
      ((setRowRow x tp t (shiftInRow tp t
          (shiftOutRow rx.parent_id rx.position r))).parent_id == p) =
      (r.parent_id == p) := by
    intro r hne
    rw [setRowRow_other tp t (by rw [moveRow_id]; exact hne),
      moveRow_parent]
  have key : ∀ l : List Todo, (∀ r ∈ l, r.id ≠ x) →
      List.countP (fun r => r.parent_id == p)
        (((l.map (shiftOutRow rx.parent_id rx.position)).map
          (shiftInRow tp t)).map (setRowRow x tp t)) =
      List.countP (fun r => r.parent_id == p) l := by
    intro l hl
    rw [List.countP_map, List.countP_map, List.countP_map]
    exact countP_congr_bool (fun r hr => hpt r (hl r hr))
  unfold grpLen moveSetRow moveShiftIn moveShiftOut
  simp only [List.map_append, List.map_cons, List.countP_append,
    List.countP_cons]
  rw [key l₁ h₁, key l₂ h₂,
    setRow_moveRow_parent x rx.parent_id rx.position tp t hx]
  by_cases h1 : tp = p <;> simp [h1] <;> omega

/-- The sibling-group census of the starting state, split at the moved
row. -/
lemma grpCount_split (l₁ l₂ : List Todo) (rx : Todo) (p : Option Nat)
    (i : Int) :
    grpCount (l₁ ++ rx :: l₂) p i =
    (l₁ ++ l₂).countP (fun r => r.parent_id == p && r.position == i) +
    (if rx.parent_id = p ∧ rx.position = i then 1 else 0) := by
  unfold grpCount
  simp only [List.countP_append, List.countP_cons]
  by_cases h1 : rx.parent_id = p <;> by_cases h2 : rx.position = i <;>
    simp [h1, h2] <;> omega

/-- The sibling-group sizes of the starting state, split at the moved
row. -/
lemma grpLen_split (l₁ l₂ : List Todo) (rx : Todo) (p : Option Nat) :
    grpLen (l₁ ++ rx :: l₂) p =
    (l₁ ++ l₂).countP (fun r => r.parent_id == p) +
    (if rx.parent_id = p then 1 else 0) := by
  unfold grpLen
  simp only [List.countP_append, List.countP_cons]
  by_cases h1 : rx.parent_id = p <;> simp [h1] <;> omega

/-- Inside a fixed sibling group `p` the group tests of the two gap
statements are constants. -/
lemma countP_guard_const (l : List Todo) (p p0 tp : Option Nat)
    (q0 t : Int) (i : Int) (g0 g1 : Bool)
    (hg0 : (p == p0) = g0) (hg1 : (p == tp) = g1) :
    l.countP (fun r => r.parent_id == p &&
      (moveShiftFn (r.parent_id == p0) (r.parent_id == tp) q0 t
        r.position == i)) =
    l.countP (fun r => r.parent_id == p &&
      (moveShiftFn g0 g1 q0 t r.position == i)) := by
  refine countP_congr_bool (fun r _ => ?_)
  by_cases hp : (r.parent_id == p) = true
  · have hpe : r.parent_id = p := by simpa using hp
    rw [hpe, hg0, hg1]
  · rw [Bool.not_eq_true] at hp
    rw [hp]
    simp

lemma countP_pos_single (l : List Todo) (p : Option Nat) (F : Int → Int)
    (i v : Int) (hiff : ∀ z : Int, F z = i ↔ z = v) :
    l.countP (fun r => r.parent_id == p && (F r.position == i)) =
    l.countP (fun r => r.parent_id == p && r.position == v) := by
  refine countP_congr_bool (fun r _ => ?_)
  have hb : (F r.position == i) = (r.position == v) := by
    by_cases h : r.position = v
    · simp [h, (hiff v).2 rfl]
    · have h2 : ¬ F r.position = i := fun hc => h ((hiff _).1 hc)
      simp [h, h2]
  rw [hb]

lemma countP_pos_none (l : List Todo) (p : Option Nat) (F : Int → Int)
    (i : Int) (hiff : ∀ z : Int, ¬ F z = i) :
    l.countP (fun r => r.parent_id == p && (F r.position == i)) = 0 := by
  refine List.countP_eq_zero.2 (fun r _ => ?_)
  simp [hiff r.position]

lemma countP_pos_pair (l : List Todo) (p : Option Nat) (F : Int → Int)
    (i v1 v2 : Int) (hne : v1 ≠ v2)
    (hiff : ∀ z : Int, F z = i ↔ z = v1 ∨ z = v2) :
    l.countP (fun r => r.parent_id == p && (F r.position == i)) =
    l.countP (fun r => r.parent_id == p && r.position == v1) +
    l.countP (fun r => r.parent_id == p && r.position == v2) := by
  induction l with
  | nil => rfl
  | cons r tl ih =>
      simp only [List.countP_cons]
      rw [ih]
      by_cases hp : (r.parent_id == p) = true
      · by_cases h1 : r.position = v1
        · have hF : F v1 = i := h1 ▸ (hiff _).2 (Or.inl h1)
          have h2 : ¬ r.position = v2 := by rw [h1]; exact hne
          simp [hp, h1, h2, hF, hne]
          omega
        · by_cases h2 : r.position = v2
          · have hF : F v2 = i := h2 ▸ (hiff _).2 (Or.inr h2)
            have hne2 : v2 ≠ v1 := fun h => hne h.symm
            simp [hp, h1, h2, hF, hne2]
            omega
          · have hF : ¬ F r.position = i := fun hc => by
              rcases (hiff _).1 hc with h | h
              · exact h1 h
              · exact h2 h
            simp [hp, h1, h2, hF]
      · rw [Bool.not_eq_true] at hp
        simp [hp]

lemma moveShiftFn_ff (q0 t z : Int) : moveShiftFn false false q0 t z = z := by
  simp [moveShiftFn]

lemma moveShiftFn_tf (q0 t z : Int) :
    moveShiftFn true false q0 t z = if q0 < z then z - 1 else z := by
  simp [moveShiftFn]

lemma moveShiftFn_ft (q0 t z : Int) :
    moveShiftFn false true q0 t z = if t ≤ z then z + 1 else z := by
  simp [moveShiftFn]

lemma moveShiftFn_tt (q0 t z : Int) :
    moveShiftFn true true q0 t z =
      if t ≤ (if q0 < z then z - 1 else z)
      then (if q0 < z then z - 1 else z) + 1
      else (if q0 < z then z - 1 else z) := by
  simp [moveShiftFn]

/-- C3: on a state with unique ids whose sibling groups all carry
positions exactly `{0, ..., k-1}`, `move_todo` of an existing id to an
in-range target position (`0 ≤ t ≤ k` for a cross-group move, and the
pre-adjusted `0 ≤ t ≤ k-1` for a move inside its own group) succeeds and
every sibling group of the result again carries positions exactly
`{0, ..., k-1}` with no duplicates. -/
theorem c3_move_keeps_positions_dense {s : State} {x : Nat} {rx : Todo}
    {tp : Option Nat} {t : Int}
    (hnd : NodupIds s)
    (hfind : s.find? (fun r => r.id == x) = some rx)
    (hd : DensePos s)
    (hrange : if tp = rx.parent_id
      then 0 ≤ t ∧ t < (grpLen s tp : Int)
      else 0 ≤ t ∧ t ≤ (grpLen s tp : Int)) :
    ∃ s', move_todo s x tp t = some s' ∧ DensePos s' := by
  have hid : rx.id = x := by simpa using List.find?_some hfind
  obtain ⟨l₁, l₂, hsp, h₁, h₂⟩ := find?_split hnd hfind
  subst hsp
  refine ⟨_, move_todo_some tp t hfind, ?_⟩
  intro p i
  have hq0 : 0 ≤ rx.position ∧
      rx.position < (grpLen (l₁ ++ rx :: l₂) rx.parent_id : Int) := by
    have hcq : 1 ≤ grpCount (l₁ ++ rx :: l₂) rx.parent_id rx.position := by
      rw [grpCount_split l₁ l₂ rx rx.parent_id rx.position,
        if_pos ⟨rfl, rfl⟩]
      omega
    have h1 := hd rx.parent_id rx.position
    by_contra hc
    rw [if_neg hc] at h1
    omega
  rw [grpCount_move_split l₁ l₂ rx x tp t hid h₁ h₂ p i,
    grpLen_move_split l₁ l₂ rx x tp t hid h₁ h₂ p]
  by_cases hp0 : p = rx.parent_id <;> by_cases hptp : tp = p
  · -- p is both the source and the target group (same-group move)
    have hg0 : (p == rx.parent_id) = true := by simp [hp0]
    have hg1 : (p == tp) = true := by simp [hptp.symm]
    rw [countP_guard_const (l₁ ++ l₂) p rx.parent_id tp rx.position t i
      true true hg0 hg1]
    have hM := grpLen_split l₁ l₂ rx p
    rw [if_pos hp0.symm] at hM
    have hr := hrange
    rw [if_pos (hptp.trans hp0)] at hr
    rw [hptp] at hr
    rw [← hp0] at hq0
    by_cases hit : i = t
    · subst hit
      rw [if_pos ⟨hptp, rfl⟩, if_pos hptp]
      rw [countP_pos_none (l₁ ++ l₂) p (moveShiftFn true true rx.position i)
        i (by intro z; rw [moveShiftFn_tt]; split_ifs <;> omega)]
      split_ifs <;> omega
    · rw [if_neg (show ¬(tp = p ∧ t = i) from fun hc => hit hc.2.symm),
        if_pos hptp]
      rcases lt_trichotomy i t with hi | hi | hi
      · rcases lt_trichotomy i rx.position with hj | hj | hj
        · rw [countP_pos_single (l₁ ++ l₂) p
            (moveShiftFn true true rx.position t) i i
            (by intro z; rw [moveShiftFn_tt]; split_ifs <;> omega)]
          have ec := grpCount_split l₁ l₂ rx p i
          rw [if_neg (show ¬(rx.parent_id = p ∧ rx.position = i) from
            fun hc => absurd hc.2 (by omega))] at ec
          have ev := hd p i
          split_ifs at ev ⊢ <;> omega
        · subst hj
          rw [countP_pos_pair (l₁ ++ l₂) p
            (moveShiftFn true true rx.position t) rx.position rx.position
            (rx.position + 1) (by omega)
            (by intro z; rw [moveShiftFn_tt]; split_ifs <;> omega)]
          have ec1 := grpCount_split l₁ l₂ rx p rx.position
          rw [if_pos ⟨hp0.symm, rfl⟩] at ec1
          have ec2 := grpCount_split l₁ l₂ rx p (rx.position + 1)
          rw [if_neg (show ¬(rx.parent_id = p ∧
              rx.position = rx.position + 1) from
            fun hc => absurd hc.2 (by omega))] at ec2
          have ev1 := hd p rx.position
          have ev2 := hd p (rx.position + 1)
          split_ifs at ev1 ev2 ⊢ <;> omega
        · rw [countP_pos_single (l₁ ++ l₂) p
            (moveShiftFn true true rx.position t) i (i + 1)
            (by intro z; rw [moveShiftFn_tt]; split_ifs <;> omega)]
          have ec := grpCount_split l₁ l₂ rx p (i + 1)
          rw [if_neg (show ¬(rx.parent_id = p ∧ rx.position = i + 1) from
            fun hc => absurd hc.2 (by omega))] at ec
          have ev := hd p (i + 1)
          split_ifs at ev ⊢ <;> omega
      · exact absurd hi hit
      · rcases lt_trichotomy (i - 1) rx.position with hj | hj | hj
        · rw [countP_pos_single (l₁ ++ l₂) p
            (moveShiftFn true true rx.position t) i (i - 1)
            (by intro z; rw [moveShiftFn_tt]; split_ifs <;> omega)]
          have ec := grpCount_split l₁ l₂ rx p (i - 1)
          rw [if_neg (show ¬(rx.parent_id = p ∧ rx.position = i - 1) from
            fun hc => absurd hc.2 (by omega))] at ec
          have ev := hd p (i - 1)
          split_ifs at ev ⊢ <;> omega
        · rw [countP_pos_pair (l₁ ++ l₂) p
            (moveShiftFn true true rx.position t) i (i - 1) i (by omega)
            (by intro z; rw [moveShiftFn_tt]; split_ifs <;> omega)]
          have ec1 := grpCount_split l₁ l₂ rx p (i - 1)
          rw [if_pos ⟨hp0.symm, hj.symm⟩] at ec1
          have ec2 := grpCount_split l₁ l₂ rx p i
          rw [if_neg (show ¬(rx.parent_id = p ∧ rx.position = i) from
            fun hc => absurd hc.2 (by omega))] at ec2
          have ev1 := hd p (i - 1)
          have ev2 := hd p i
          split_ifs at ev1 ev2 ⊢ <;> omega
        · rw [countP_pos_single (l₁ ++ l₂) p
            (moveShiftFn true true rx.position t) i i
            (by intro z; rw [moveShiftFn_tt]; split_ifs <;> omega)]
          have ec := grpCount_split l₁ l₂ rx p i
          rw [if_neg (show ¬(rx.parent_id = p ∧ rx.position = i) from
            fun hc => absurd hc.2 (by omega))] at ec
          have ev := hd p i
          split_ifs at ev ⊢ <;> omega
  · -- p is the source group only
    have hg0 : (p == rx.parent_id) = true := by simp [hp0]
    have hg1 : (p == tp) = false := by
      have hne : ¬ p = tp := fun h => hptp h.symm
      simp [hne]
    rw [countP_guard_const (l₁ ++ l₂) p rx.parent_id tp rx.position t i
      true false hg0 hg1]
    have hM := grpLen_split l₁ l₂ rx p
    rw [if_pos hp0.symm] at hM
    rw [← hp0] at hq0
    rw [if_neg (show ¬(tp = p ∧ t = i) from fun hc => hptp hc.1),
      if_neg hptp]
    rcases lt_trichotomy i rx.position with hi | hi | hi
    · rw [countP_pos_single (l₁ ++ l₂) p
        (moveShiftFn true false rx.position t) i i
        (by intro z; rw [moveShiftFn_tf]; split_ifs <;> omega)]
      have ec := grpCount_split l₁ l₂ rx p i
      rw [if_neg (show ¬(rx.parent_id = p ∧ rx.position = i) from
        fun hc => absurd hc.2 (by omega))] at ec
      have ev := hd p i
      split_ifs at ev ⊢ <;> omega
    · subst hi
      rw [countP_pos_pair (l₁ ++ l₂) p
        (moveShiftFn true false rx.position t) rx.position rx.position
        (rx.position + 1) (by omega)
        (by intro z; rw [moveShiftFn_tf]; split_ifs <;> omega)]
      have ec1 := grpCount_split l₁ l₂ rx p rx.position
      rw [if_pos ⟨hp0.symm, rfl⟩] at ec1
      have ec2 := grpCount_split l₁ l₂ rx p (rx.position + 1)
      rw [if_neg (show ¬(rx.parent_id = p ∧ rx.position = rx.position + 1)
        from fun hc => absurd hc.2 (by omega))] at ec2
      have ev1 := hd p rx.position
      have ev2 := hd p (rx.position + 1)
      split_ifs at ev1 ev2 ⊢ <;> omega
    · rw [countP_pos_single (l₁ ++ l₂) p
        (moveShiftFn true false rx.position t) i (i + 1)
        (by intro z; rw [moveShiftFn_tf]; split_ifs <;> omega)]
      have ec := grpCount_split l₁ l₂ rx p (i + 1)
      rw [if_neg (show ¬(rx.parent_id = p ∧ rx.position = i + 1) from
        fun hc => absurd hc.2 (by omega))] at ec
      have ev := hd p (i + 1)
      split_ifs at ev ⊢ <;> omega
  · -- p is the target group only
    have hg0 : (p == rx.parent_id) = false := by simp [hp0]
    have hg1 : (p == tp) = true := by simp [hptp.symm]
    rw [countP_guard_const (l₁ ++ l₂) p rx.parent_id tp rx.position t i
      false true hg0 hg1]
    have hM := grpLen_split l₁ l₂ rx p
    rw [if_neg (fun hc => hp0 hc.symm)] at hM
    have hr := hrange
    rw [if_neg (show ¬ tp = rx.parent_id from
      fun h => hp0 (by rw [← hptp]; exact h))] at hr
    rw [hptp] at hr
    rcases lt_trichotomy i t with hi | hi | hi
    · rw [if_neg (show ¬(tp = p ∧ t = i) from
        fun hc => absurd hc.2 (by omega)), if_pos hptp]
      rw [countP_pos_single (l₁ ++ l₂) p
        (moveShiftFn false true rx.position t) i i
        (by intro z; rw [moveShiftFn_ft]; split_ifs <;> omega)]
      have ec := grpCount_split l₁ l₂ rx p i
      rw [if_neg (fun hc => hp0 hc.1.symm)] at ec
      have ev := hd p i
      split_ifs at ev ⊢ <;> omega
    · subst hi
      rw [if_pos ⟨hptp, rfl⟩, if_pos hptp]
      rw [countP_pos_none (l₁ ++ l₂) p (moveShiftFn false true rx.position i)
        i (by intro z; rw [moveShiftFn_ft]; split_ifs <;> omega)]
      split_ifs <;> omega
    · rw [if_neg (show ¬(tp = p ∧ t = i) from
        fun hc => absurd hc.2 (by omega)), if_pos hptp]
      rw [countP_pos_single (l₁ ++ l₂) p
        (moveShiftFn false true rx.position t) i (i - 1)
        (by intro z; rw [moveShiftFn_ft]; split_ifs <;> omega)]
      have ec := grpCount_split l₁ l₂ rx p (i - 1)
      rw [if_neg (fun hc => hp0 hc.1.symm)] at ec
      have ev := hd p (i - 1)
      split_ifs at ev ⊢ <;> omega
  · -- p is untouched by the move
    have hg0 : (p == rx.parent_id) = false := by simp [hp0]
    have hg1 : (p == tp) = false := by
      have hne : ¬ p = tp := fun h => hptp h.symm
      simp [hne]
    rw [countP_guard_const (l₁ ++ l₂) p rx.parent_id tp rx.position t i
      false false hg0 hg1]
    rw [countP_pos_single (l₁ ++ l₂) p
      (moveShiftFn false false rx.position t) i i
      (by intro z; rw [moveShiftFn_ff])]
    rw [if_neg (show ¬(tp = p ∧ t = i) from fun hc => hptp hc.1),
      if_neg hptp]
    have hM := grpLen_split l₁ l₂ rx p
    rw [if_neg (fun hc => hp0 hc.symm)] at hM
    have ec := grpCount_split l₁ l₂ rx p i
    rw [if_neg (fun hc => hp0 hc.1.symm)] at ec
    have ev := hd p i
    split_ifs at ev ⊢ <;> omega

/-- Concrete state for the C3 witness: one root row at position 0. -/
def c3StateW : State :=
  [{ id := 1, text := "A", completed := false, parent_id := none,
     position := 0, target_count := none, current_count := 0 }]

/-- Witness for C3: moving the only row of a dense one-row store to root
position 0 succeeds and keeps every sibling group dense. -/
theorem c3_move_keeps_positions_dense_witness :
    ∃ s', move_todo c3StateW 1 none 0 = some s' ∧ DensePos s' := by
  refine c3_move_keeps_positions_dense (by unfold NodupIds; decide) rfl
    ?_ ?_
  · intro p i
    cases p with
    | none =>
        by_cases hi : i = 0
        · subst hi
          decide
        · have hi2 : ¬ (0 : Int) = i := fun h => hi h.symm
          have h1 : grpCount c3StateW none i = 0 := by
            simp [grpCount, c3StateW, List.countP_cons, hi, hi2]
          have h2 : grpLen c3StateW none = 1 := rfl
          rw [h1, h2, if_neg (by omega)]
    | some y =>
        have h1 : grpCount c3StateW (some y) i = 0 := by
          simp [grpCount, c3StateW, List.countP_cons]
        have h2 : grpLen c3StateW (some y) = 0 := by
          simp [grpLen, c3StateW, List.countP_cons]
        rw [h1, h2, if_neg (by omega)]
  · decide
